import Mathlib

/-!
# Schematix core: shallow embedding and verification

This file embeds the core of the schematix library (fields, the value
pipeline, conditional fields, composite fields, schemas, bound schemas and
the dependency resolver) as executable Lean definitions, translated from
`src/schematix/core/bases/field.py`, `src/schematix/core/field.py`,
`src/schematix/core/schema.py` and `src/schematix/core/deps.py`, and proves
properties of those definitions.

Modelling conventions:
* Python runtime values are modelled by the inductive type `Value`.
  Callables are references (`Value.fn i`) into an environment
  `Env : Nat → List Value → Except PyErr Value`; applying a callable with
  arguments `args` runs `env i args`.  This models the "opaque callable"
  contract of transforms, type casts, mappers and condition evaluators.
* Python exceptions are modelled by `PyErr` (a class name plus a message);
  `raise` is `Except.error`, `try/except` is matching on the `Except`.
* Python attribute mutation (`setattr`) is modelled by functional record
  update; functions that mutate `self` return the updated `Field` next to
  their result.
* Python `dict`s are association lists in insertion order (keys unique in
  any dict built by Python itself).
-/

namespace Schematix

/-- A Python exception: its class name and its message (`str(e)`). -/
structure PyErr where
  cls : String
  msg : String
deriving DecidableEq

/-- `raise ValueError(msg)`. -/
def valueError (msg : String) : PyErr := ⟨"ValueError", msg⟩

/-- A Python runtime value, restricted to the universe the core manipulates.
`fn i` is a reference to the `i`-th callable of the ambient environment. -/
inductive Value where
  | none
  | bool (b : Bool)
  | int (n : Int)
  | str (s : String)
  | list (vs : List Value)
  | tuple (vs : List Value)
  | dict (kvs : List (Value × Value))
  | fn (i : Nat)

/-- The environment interpreting callable references; a call
`f(a1, …, ak)` is `env i [a1, …, ak]` when `f = Value.fn i`. -/
abbrev Env := Nat → List Value → Except PyErr Value

/-- `s.split('.')` — Python `str.split` on a single-character separator
(empty segments are kept). -/
def splitDot (s : String) : List String :=
  (go s.data []).map String.mk
where
  go : List Char → List Char → List (List Char)
    | [], acc => [acc.reverse]
    | c :: cs, acc =>
      if c == '.' then acc.reverse :: go cs [] else go cs (c :: acc)

/-- Python truthiness (`bool(v)`). -/
def truthy : Value → Bool
  | .none => false
  | .bool b => b
  | .int n => n != 0
  | .str s => !s.data.isEmpty
  | .list vs => !vs.isEmpty
  | .tuple vs => !vs.isEmpty
  | .dict kvs => !kvs.isEmpty
  | .fn _ => true

/-- `v is None` (identity comparison with `None`). -/
def isNone : Value → Bool
  | .none => true
  | _ => false

/-- Python `==` on the modelled value universe.  Booleans compare equal to
the corresponding integers (`True == 1`), everything else is structural.
(Dict comparison is positional on `(key, value)` pairs — an
order-sensitive approximation of Python's order-insensitive dict
equality; the core only applies `==` to dicts through dict-key lookup,
whose keys are scalars.) -/
def beqValue : Value → Value → Bool
  | .none, .none => true
  | .bool a, .bool b => a == b
  | .bool a, .int n => (if a then (1 : Int) else 0) == n
  | .int n, .bool a => n == (if a then (1 : Int) else 0)
  | .int m, .int n => m == n
  | .str a, .str b => a == b
  | .list xs, .list ys => beqL xs ys
  | .tuple xs, .tuple ys => beqL xs ys
  | .dict xs, .dict ys => beqKV xs ys
  | .fn i, .fn j => i == j
  | _, _ => false
where
  beqL : List Value → List Value → Bool
    | [], [] => true
    | x :: xs, y :: ys => beqValue x y && beqL xs ys
    | _, _ => false
  beqKV : List (Value × Value) → List (Value × Value) → Bool
    | [], [] => true
    | (k1, v1) :: xs, (k2, v2) :: ys => beqValue k1 k2 && beqValue v1 v2 && beqKV xs ys
    | _, _ => false

/-- Lookup in a Python dict (`d[k]` / `d.get(k)`): first entry whose key
compares `==` to `k` (keys of a real Python dict are pairwise distinct). -/
def dictGet? (kvs : List (Value × Value)) (k : Value) : Option Value :=
  match kvs with
  | [] => Option.none
  | (k1, v1) :: rest => if beqValue k1 k then Option.some v1 else dictGet? rest k

/-- `d[k] = v` on a Python dict: replace the first `==`-matching key in
place, else append a new entry (insertion order semantics). -/
def dictSet (kvs : List (Value × Value)) (k v : Value) : List (Value × Value) :=
  match kvs with
  | [] => [(k, v)]
  | (k1, v1) :: rest =>
    if beqValue k1 k then (k1, v) :: rest else (k1, v1) :: dictSet rest k v

/-- `a.copy(); a.update(b)`: set every entry of `b` into `a`, left to
right. -/
def dictUpdate (a b : List (Value × Value)) : List (Value × Value) :=
  b.foldl (fun acc p => dictSet acc p.1 p.2) a

/-- A string rendered as Python `repr` renders it (escaping is not
modelled). -/
def strQuote (s : String) : String := "\x27" ++ s ++ "\x27"

/-- Python `str(v)`, approximated for the modelled universe (containers
render their elements with `repr`). -/
def pystr : Value → String
  | .none => "None"
  | .bool b => if b then "True" else "False"
  | .int n => toString n
  | .str s => s
  | .list vs => "[" ++ String.intercalate ", " (reprL vs) ++ "]"
  | .tuple vs => "(" ++ String.intercalate ", " (reprL vs) ++ ")"
  | .dict kvs => "\x7b" ++ String.intercalate ", " (reprKV kvs) ++ "\x7d"
  | .fn i => "<function " ++ toString i ++ ">"
where
  reprL : List Value → List String
    | [] => []
    | .str s :: vs => strQuote s :: reprL vs
    | v :: vs => pystr v :: reprL vs
  reprKV : List (Value × Value) → List String
    | [] => []
    | (.str ks, .str vs) :: kvs => (strQuote ks ++ ": " ++ strQuote vs) :: reprKV kvs
    | (.str ks, v) :: kvs => (strQuote ks ++ ": " ++ pystr v) :: reprKV kvs
    | (k, .str vs) :: kvs => (pystr k ++ ": " ++ strQuote vs) :: reprKV kvs
    | (k, v) :: kvs => (pystr k ++ ": " ++ pystr v) :: reprKV kvs

/-- Python `repr(v)` (strings get quotes). -/
def pyrepr : Value → String
  | .str s => strQuote s
  | v => pystr v

/-- Python iteration `for x in v` over the modelled containers (iterating
a string yields its characters; iterating a dict yields its keys).
Non-iterable values yield nothing (Python would raise `TypeError`; the
core only iterates values declared as lists). -/
def pyIter : Value → List Value
  | .list vs => vs
  | .tuple vs => vs
  | .str s => s.toList.map (fun c => Value.str c.toString)
  | .dict kvs => kvs.map Prod.fst
  | _ => []

/-- Calling a value: `Value.fn i` dispatches into the environment, any
other value raises `TypeError` as in Python. -/
def pycall (env : Env) (f : Value) (args : List Value) : Except PyErr Value :=
  match f with
  | .fn i => env i args
  | _ => .error ⟨"TypeError", "object is not callable"⟩

/-! ## Fields (`core/bases/field.py`, `BaseField.__init__` / `__defaults__`)

Every attribute holds an arbitrary Python object (`setattr` is untyped),
so every attribute is a `Value`; the default of each attribute is the
constructor default of `BaseField.__init__`.  `_kwargs` is empty for
fields built from the sixteen declared parameters and is not modelled. -/

structure Field where
  name : Value := .none
  required : Value := .bool false
  default : Value := .none
  transform : Value := .none
  source : Value := .none
  target : Value := .none
  type : Value := .none
  choices : Value := .none
  mapping : Value := .none
  mapper : Value := .none
  keysaschoices : Value := .bool true
  valuesaschoices : Value := .bool false
  transient : Value := .bool false
  conditional : Value := .bool false
  dependencies : Value := .none
  conditions : Value := .none

/-- `BaseField._getnestedvalue(data, pathparts)`: walk dot-path segments;
a mapping-like container answers `get`, a missing segment or a `None`
along the way answers `self.default`.  (Values in this model carry no
object attributes, so only mapping-like lookup can succeed.) -/
def getnestedvalue (f : Field) (data : Value) : List String → Value
  | [] => data
  | part :: rest =>
    match data with
    | .dict kvs =>
      match dictGet? kvs (.str part) with
      | Option.none => f.default
      | Option.some cur =>
        if isNone cur then f.default else getnestedvalue f cur rest
    | _ => f.default

/-- `BaseField._getsourcevalue(data)`: no source ⇒ default; dotted source
⇒ nested walk; otherwise mapping-like `data.get(source, default)`, and
a container without the key (or a non-container) answers the default.
A non-string, non-`None` source raises `TypeError` from `'.' in source`. -/
def getsourcevalue (f : Field) (data : Value) : Except PyErr Value :=
  match f.source with
  | .none => .ok f.default
  | .str s =>
    if s.data.contains '.' then .ok (getnestedvalue f data (splitDot s))
    else
      match data with
      | .dict kvs => .ok ((dictGet? kvs (.str s)).getD f.default)
      | _ => .ok f.default
  | _ => .error ⟨"TypeError", "argument of type is not iterable"⟩

/-- `BaseField._applytransform(value)`: call `transform(value)` when a
transform is set and the value is not `None`. -/
def applytransform (env : Env) (f : Field) (v : Value) : Except PyErr Value :=
  if !(isNone f.transform) && !(isNone v) then pycall env f.transform [v] else .ok v

/-- `BaseField._applytype(value)`: call `type(value)` when a type is set
and the value is not `None`; a `ValueError`/`TypeError` from the cast is
wrapped into `Cannot convert '…' to …`. -/
def applytype (env : Env) (f : Field) (v : Value) : Except PyErr Value :=
  if isNone f.type || isNone v then .ok v
  else
    match pycall env f.type [v] with
    | .ok r => .ok r
    | .error e =>
      if e.cls == "ValueError" || e.cls == "TypeError" then
        .error (valueError ("Cannot convert \x27" ++ pystr v ++ "\x27 to " ++ pystr f.type ++ ": " ++ e.msg))
      else .error e

/-- The scalar lookup arm of `BaseField._applymapping(value)`: a direct
`==` lookup in the mapping; on a miss, a set `mapper(value, mapping)` is
tried with its failure falling back to the default when set, and with no
mapper the default is answered when set, else an error is raised. -/
def applymappingScalar (env : Env) (f : Field) (v : Value) : Except PyErr Value :=
  match f.mapping with
  | .dict kvs =>
    match dictGet? kvs v with
    | Option.some mapped => .ok mapped
    | Option.none =>
      if !(truthy f.mapper) then
        if !(isNone f.default) then .ok f.default
        else .error (valueError ("No mapping found for value \x27" ++ pystr v ++ "\x27 and no mapper function provided"))
      else
        match pycall env f.mapper [v, f.mapping] with
        | .ok r => .ok r
        | .error e =>
          if !(isNone f.default) then .ok f.default
          else .error (valueError ("Mapping failed for value \x27" ++ pystr v ++ "\x27: " ++ e.msg))
  | _ => .error ⟨"TypeError", "mapping object is not a dict"⟩

/-- `BaseField._applymapping(value)`: `None` passes through, a falsy
mapping passes the value through, list/tuple values map element-wise
recursively (a failure falls back to the default when set), every other
value does the scalar lookup of `applymappingScalar`. -/
def applymapping (env : Env) (f : Field) : Value → Except PyErr Value
  | .none => .ok .none
  | .list items =>
    if !(truthy f.mapping) then .ok (.list items)
    else
      match mapL items with
      | .ok mapped => .ok (.list mapped)
      | .error e =>
        if !(isNone f.default) then .ok f.default
        else .error (valueError ("Mapping failed for <class \x27list\x27> value \x27" ++ pystr (.list items) ++ "\x27: " ++ e.msg))
  | .tuple items =>
    if !(truthy f.mapping) then .ok (.tuple items)
    else
      match mapL items with
      | .ok mapped => .ok (.list mapped)
      | .error e =>
        if !(isNone f.default) then .ok f.default
        else .error (valueError ("Mapping failed for <class \x27tuple\x27> value \x27" ++ pystr (.tuple items) ++ "\x27: " ++ e.msg))
  | v =>
    if !(truthy f.mapping) then .ok v
    else applymappingScalar env f v
where
  mapL : List Value → Except PyErr (List Value)
    | [] => .ok []
    | item :: rest =>
      match applymapping env f item with
      | .error e => .error e
      | .ok m =>
        match mapL rest with
        | .error e => .error e
        | .ok ms => .ok (m :: ms)

/-- `BaseField._validatechoices(value)`: falsy choices pass through,
otherwise `value in choices` (Python `==` membership) must hold, else a
`ValueError` naming the value and the allowed set. -/
def validatechoices (f : Field) (v : Value) : Except PyErr Value :=
  if !(truthy f.choices) then .ok v
  else if (pyIter f.choices).any (fun c => beqValue v c) then .ok v
  else .error (valueError ("Value \x27" ++ pystr v ++ "\x27 not in allowed choices: " ++ pyrepr f.choices))

/-- `BaseField.validate(value)`: the default custom-validate hook is the
identity (`Field` does not override it). -/
def validateHook (_f : Field) (v : Value) : Value := v

/-- `BaseField._checkrequired(value)`: a truthy `required` with a `None`
value raises. -/
def checkrequired (f : Field) (v : Value) : Except PyErr Unit :=
  if truthy f.required && isNone v then
    .error (valueError ("(" ++ pystr f.name ++ ") required field is missing or None"))
  else .ok ()

/-- The non-conditional extraction pipeline of `Field.extract` (its
literal stage sequence: source → transform → type → mapping → choices →
validate → required). -/
def pipeline (env : Env) (f : Field) (data : Value) : Except PyErr Value := do
  let raw ← getsourcevalue f data
  let transformed ← applytransform env f raw
  let typed ← applytype env f transformed
  let mapped ← applymapping env f typed
  let choicesvalidated ← validatechoices f mapped
  let validated := validateHook f choicesvalidated
  let _ ← checkrequired f validated
  .ok validated

/-! ## Conditional fields (`core/field.py`, `Field`) -/

/-- The dependency-value gathering loop of `Field._evaluateconditions`:
each declared dependency must be a key of `computed` (the dict of
already-resolved sibling values), else a `ValueError` names it. -/
def collectDepvals (f : Field) (computed : List (Value × Value)) :
    List Value → Except PyErr (List Value)
  | [] => .ok []
  | dep :: rest =>
    match dictGet? computed dep with
    | Option.none =>
      .error (valueError ("Dependency \x27" ++ pystr dep ++ "\x27 not available for field \x27" ++ pystr f.name ++ "\x27"))
    | Option.some v => do
      let vs ← collectDepvals f computed rest
      .ok (v :: vs)

/-- The evaluator loop of `Field._evaluateconditions`: each condition's
evaluator is called positionally on the dependency values; a failure is
wrapped naming the condition and the field. -/
def evalConditions (env : Env) (f : Field) (depvals : List Value) :
    List (Value × Value) → Except PyErr (List (Value × Value))
  | [] => .ok []
  | (key, evaluator) :: rest =>
    match pycall env evaluator depvals with
    | .error e =>
      .error (valueError ("Condition \x27" ++ pystr key ++ "\x27 failed for field \x27" ++ pystr f.name ++ "\x27: " ++ e.msg))
    | .ok r => do
      let res ← evalConditions env f depvals rest
      .ok ((key, r) :: res)

/-- `Field._evaluateconditions(computed)`: falsy `dependencies` or
`conditions` raise; otherwise gather dependency values from `computed`
and evaluate every condition, producing the `evaluated` dict in
condition order. -/
def evaluateconditions (env : Env) (f : Field) (computed : List (Value × Value)) :
    Except PyErr (List (Value × Value)) :=
  if !(truthy f.dependencies) then
    .error (valueError ("Conditional Field \x27" ++ pystr f.name ++ "\x27 has no dependencies"))
  else if !(truthy f.conditions) then
    .error (valueError ("Conditional Field \x27" ++ pystr f.name ++ "\x27 has no conditions"))
  else
    match f.conditions with
    | .dict conds => do
      let depvals ← collectDepvals f computed (pyIter f.dependencies)
      evalConditions env f depvals conds
    | _ => .error ⟨"AttributeError", "conditions object has no attribute items"⟩

/-- The attribute names a `Field` instance owns (the sixteen constructor
parameters); `hasattr(self, prop)` for these is true. -/
def hasattrF (s : String) : Bool :=
  s ∈ ["name", "required", "default", "transform", "source", "target",
       "type", "choices", "mapping", "mapper", "keysaschoices", "valuesaschoices",
       "transient", "conditional", "dependencies", "conditions"]

/-- `setattr(self, prop, v)` for the sixteen field attributes. -/
def setattrV (f : Field) (prop : String) (v : Value) : Field :=
  match prop with
  | "name" => { f with name := v }
  | "required" => { f with required := v }
  | "default" => { f with default := v }
  | "transform" => { f with transform := v }
  | "source" => { f with source := v }
  | "target" => { f with target := v }
  | "type" => { f with type := v }
  | "choices" => { f with choices := v }
  | "mapping" => { f with mapping := v }
  | "mapper" => { f with mapper := v }
  | "keysaschoices" => { f with keysaschoices := v }
  | "valuesaschoices" => { f with valuesaschoices := v }
  | "transient" => { f with transient := v }
  | "conditional" => { f with conditional := v }
  | "dependencies" => { f with dependencies := v }
  | "conditions" => { f with conditions := v }
  | _ => f

/-- The override-application loop of `Field._extractwithoverrides`:
`setattr(self, prop, value)` for every override whose key is not
`'value'` and is an attribute the field has.  (Non-string condition keys
are excluded by the declared type `t.Dict[str, t.Callable]` and are not
modelled.) -/
def applyOverrides (f : Field) : List (Value × Value) → Field
  | [] => f
  | (k, v) :: rest =>
    let f1 :=
      match k with
      | .str s => if s ≠ "value" && hasattrF s then setattrV f s v else f
      | _ => f
    applyOverrides f1 rest

/-- The attributes `Field._extractwithoverrides` snapshots before
applying overrides and unconditionally restores in its `finally` block:
`required`, `default`, `transform`, `choices`, `type`, `mapping`. -/
def restoreprops (cur saved : Field) : Field :=
  { cur with
    required := saved.required
    default := saved.default
    transform := saved.transform
    choices := saved.choices
    type := saved.type
    mapping := saved.mapping }

/-- `Field._extractwithoverrides(data, overrides)`: apply the overrides
to the field, run the normal pipeline, and — whether the pipeline
returned or raised — restore the six snapshotted attributes onto the
(possibly still otherwise-overridden) field.  The pair is (result,
field state after the call). -/
def extractwithoverrides (env : Env) (f : Field) (data : Value)
    (overrides : List (Value × Value)) : Except PyErr Value × Field :=
  let f1 := applyOverrides f overrides
  (pipeline env f1 data, restoreprops f1 f)

/-- `Field.extract(data, computed)` together with the field state after
the call (the field mutates itself only on the conditional override
path).  Conditional fields demand `computed`, evaluate their conditions,
short-circuit on a `'value'` key, and otherwise run the override
machinery; non-conditional fields run the plain pipeline. -/
def extractFull (env : Env) (f : Field) (data : Value)
    (computed : Option (List (Value × Value))) : Except PyErr Value × Field :=
  if truthy f.conditional then
    match computed with
    | Option.none =>
      (.error (valueError ("Conditional field \x27" ++ pystr f.name ++ "\x27 requires computed (fields)")), f)
    | Option.some comp =>
      match evaluateconditions env f comp with
      | .error e => (.error e, f)
      | .ok evaluated =>
        match dictGet? evaluated (.str "value") with
        | Option.some v => (.ok v, f)
        | Option.none => extractwithoverrides env f data evaluated
  else (pipeline env f data, f)

/-- `Field.extract(data, computed)` (the returned value). -/
def Field.extract (env : Env) (f : Field) (data : Value)
    (computed : Option (List (Value × Value))) : Except PyErr Value :=
  (extractFull env f data computed).1

/-! ## Composite fields (`core/field.py`)

A composite field holds child `BaseField`s and uses exactly three things
of a child: its `name`, its `required` flag, and its one-argument
`extract(data)`.  A child is therefore modelled duck-typed, by those
three components. -/

structure ChildF where
  name : Value := .none
  required : Value := .bool false
  extract : Value → Except PyErr Value

/-- `FallbackField`: `__init__` stores the primary and fallback children
and derives `name`/`required`/`default` (`primary.required` for
`required`, `fallback`'s default as ultimate default). -/
structure FallbackField where
  primary : ChildF
  fallback : ChildF
  name : Value := .none

/-- `FallbackField.extract(data)`: try the primary; a `None` result of a
non-required primary, or any primary exception, delegates to the
fallback (whose own outcome — including `None` — is returned as is, with
no required check applied). -/
def fallbackExtract (fb : FallbackField) (data : Value) : Except PyErr Value :=
  match fb.primary.extract data with
  | .ok v =>
    if isNone v && !(truthy fb.primary.required) then fb.fallback.extract data
    else .ok v
  | .error _ => fb.fallback.extract data

/-- `CombinedField`: an ordered list of children (`required` is derived
as "any child required", `default` is `{}`). -/
structure CombinedField where
  fields : List ChildF
  name : Value := .none

/-- The child loop of `CombinedField.extract`, threading the accumulated
result dict and the collected error messages: a named child's success is
stored under its name (skipping `None` unless the child is required); an
unnamed child's dict success is merged into the result and any other
success is stored under `"field" + len(result)`; a failure of a required
child appends an error message, a failure of a non-required child is
skipped. -/
def combinedLoop (data : Value) : List ChildF → List (Value × Value) → List String →
    List (Value × Value) × List String
  | [], result, errors => (result, errors)
  | c :: rest, result, errors =>
    match c.extract data with
    | .ok v =>
      if truthy c.name then
        if !(isNone v) || truthy c.required then
          combinedLoop data rest (dictSet result c.name v) errors
        else combinedLoop data rest result errors
      else
        match v with
        | .dict kvs => combinedLoop data rest (dictUpdate result kvs) errors
        | _ => combinedLoop data rest (dictSet result (.str ("field" ++ toString result.length)) v) errors
    | .error e =>
      if truthy c.required then
        combinedLoop data rest result
          (errors ++ ["Required field \x27" ++ pystr c.name ++ "\x27 failed: " ++ e.msg])
      else combinedLoop data rest result errors

/-- `CombinedField.extract(data)`: run every child, then raise one
aggregate error joining every collected message, or return the merged
dict. -/
def combinedExtract (cf : CombinedField) (data : Value) : Except PyErr Value :=
  match combinedLoop data cf.fields [] [] with
  | (_, e :: es) =>
    .error (valueError ("CombinedField extraction failed: " ++ String.intercalate "; " (e :: es)))
  | (result, []) => .ok (.dict result)

/-- `AccumulatedField`: an ordered list of children plus the string
separator (`required` is derived as "any child required", `default` is
`None`). -/
structure AccumulatedField where
  fields : List ChildF
  separator : String := " "
  name : Value := .none

/-- Derived `required` of an `AccumulatedField` (`any(f.required …)`). -/
def accRequired (af : AccumulatedField) : Bool :=
  af.fields.any (fun c => truthy c.required)

/-- The value-collection loop of `AccumulatedField.extract`: successful
non-`None` child values are kept in order; the FIRST failing required
child raises immediately (remaining children are not reached); failing
non-required children and `None` values are skipped. -/
def collectValues (data : Value) : List ChildF → Except PyErr (List Value)
  | [] => .ok []
  | c :: rest =>
    match c.extract data with
    | .ok v =>
      if isNone v then collectValues data rest
      else do
        let vs ← collectValues data rest
        .ok (v :: vs)
    | .error e =>
      if truthy c.required then
        .error (valueError ("Required field \x27" ++ pystr c.name ++ "\x27 failed in accumulation: " ++ e.msg))
      else collectValues data rest

/-- `AccumulatedField._combinevalues(left, right)`: dict+dict shallow
merge (right wins), sequence+sequence concatenation (to a list),
number+number addition (Python booleans count as numbers), str+str join
with the separator; every remaining same-type pair in the modelled
universe (`None`, callables) fails native `+` and, like every mismatched
pair, falls back to stringify-and-join. -/
def combinevalues (sep : String) (l r : Value) : Value :=
  match l, r with
  | .dict a, .dict b => .dict (dictUpdate a b)
  | .list a, .list b => .list (a ++ b)
  | .list a, .tuple b => .list (a ++ b)
  | .tuple a, .list b => .list (a ++ b)
  | .tuple a, .tuple b => .list (a ++ b)
  | .int m, .int n => .int (m + n)
  | .int m, .bool b => .int (m + (if b then 1 else 0))
  | .bool a, .int n => .int ((if a then 1 else 0) + n)
  | .bool a, .bool b => .int ((if a then 1 else 0) + (if b then 1 else 0))
  | .str a, .str b => .str (a ++ sep ++ b)
  | l, r => .str (pystr l ++ sep ++ pystr r)

/-- `AccumulatedField._accumulatevalues(values)`: empty ⇒ the field's
default, singleton ⇒ the value, otherwise the left fold of
`_combinevalues` starting from the first value. -/
def accumulatevalues (default : Value) (sep : String) (values : List Value) : Value :=
  match values with
  | [] => default
  | [v] => v
  | v :: rest => rest.foldl (combinevalues sep) v

/-- `AccumulatedField.extract(data)`: collect child values; no value
with a derived-required field raises, no value otherwise answers the
default (`None`); else accumulate.  -/
def accExtract (af : AccumulatedField) (data : Value) : Except PyErr Value :=
  match collectValues data af.fields with
  | .error e => .error e
  | .ok values =>
    if values.isEmpty then
      if accRequired af then
        .error (valueError "No values available for required accumulated field")
      else .ok .none
    else .ok (accumulatevalues .none af.separator values)

/-! ## Schema and BoundSchema (`core/schema.py`)

A schema's registry `_fields` is an insertion-ordered, name-keyed field
mapping (built at class-creation time by the metaclass); it is modelled
as an association list with the registry keys as Lean strings. -/

/-- `Schema.transform(data)` (with the default `typetarget=None`):
iterate the registry in order, `result[name] = field.extract(data)` —
note the code passes NO `computed` argument and consults no dependency
order — wrapping the first failure as
`Schema transformation failed on field '<name>': …` (fail-fast). -/
def schemaTransform (env : Env) (fields : List (String × Field)) (data : Value) :
    Except PyErr (List (Value × Value)) :=
  match fields with
  | [] => .ok []
  | (name, f) :: rest =>
    match Field.extract env f data Option.none with
    | .error e =>
      .error (valueError ("Schema transformation failed on field \x27" ++ name ++ "\x27: " ++ e.msg))
    | .ok v =>
      match schemaTransform env rest data with
      | .error e => .error e
      | .ok r => .ok ((.str name, v) :: r)

/-- `BoundSchema._bindfield(field, name)`: an absent (or `None`) mapping
entry passes the field through unchanged; a string entry replaces the
source; a 2-tuple replaces source and transform; a callable replaces the
transform; anything else raises.  The rebuilt field is
`field.__class__(name=…, source=…, transform=…, required=…, default=…)`
— every other attribute takes its constructor default. -/
def rebindField (f : Field) (newsource newtransform : Value) : Field :=
  { name := f.name
    source := newsource
    transform := newtransform
    required := f.required
    default := f.default }

/-- `BoundSchema._bindfield(field, name)`. -/
def bindfield (mapping : List (String × Value)) (f : Field) (name : String) :
    Except PyErr Field :=
  match (List.lookup name mapping).getD Value.none with
  | .none => .ok f
  | .str s => .ok (rebindField f (.str s) f.transform)
  | .tuple [a, b] => .ok (rebindField f a b)
  | .fn i => .ok (rebindField f f.source (.fn i))
  | m => .error (valueError ("Invalid mapping for field \x27" ++ name ++ "\x27: " ++ pystr m))

/-- `BoundSchema._bindfields()`: bind every registry field. -/
def bindfields (mapping : List (String × Value)) :
    List (String × Field) → Except PyErr (List (String × Field))
  | [] => .ok []
  | (name, f) :: rest =>
    match bindfield mapping f name with
    | .error e => .error e
    | .ok b =>
      match bindfields mapping rest with
      | .error e => .error e
      | .ok bs => .ok ((name, b) :: bs)

/-- The extraction loop of `BoundSchema.transform(data)`: like
`Schema.transform` but wrapping failures as
`Error transforming field '<name>': …`. -/
def boundLoop (env : Env) (data : Value) : List (String × Field) →
    Except PyErr (List (Value × Value))
  | [] => .ok []
  | (name, bf) :: rest =>
    match Field.extract env bf data Option.none with
    | .error e =>
      .error (valueError ("Error transforming field \x27" ++ name ++ "\x27: " ++ e.msg))
    | .ok v =>
      match boundLoop env data rest with
      | .error e => .error e
      | .ok r => .ok ((.str name, v) :: r)

/-- `Schema.bind(mapping)` followed by `BoundSchema.transform(data)`:
binding computes the bound registry once, transform loops over it. -/
def boundSchemaTransform (env : Env) (fields : List (String × Field))
    (mapping : List (String × Value)) (data : Value) :
    Except PyErr (List (Value × Value)) :=
  match bindfields mapping fields with
  | .error e => .error e
  | .ok bound => boundLoop env data bound

/-! ## Dependency resolver (`core/deps.py`)

`DependencyResolver` is constructed on a schema's field mapping and
validates every declared dependency on construction; `resolveorder()`
runs Kahn's algorithm and, on an incomplete result, reports one concrete
cycle found by depth-first search. -/

/-- `(field.dependencies or [])`, iterated. -/
def fieldDepsV (f : Field) : List Value :=
  if truthy f.dependencies then pyIter f.dependencies else []

/-- The declared dependencies of a field as strings.  (A non-string
dependency value is rejected by `_validatedependencies` before
`resolveorder` or `_detectcycle` can run, so dropping it here is
unobservable.) -/
def strDeps (f : Field) : List String :=
  (fieldDepsV f).filterMap (fun v => match v with | .str s => Option.some s | _ => Option.none)

/-- The inner loop of `DependencyResolver._validatedependencies`: every
dependency of a conditional field must be a key of the field mapping. -/
def validateDepsInner (names : List String) (fname : String) :
    List Value → Except PyErr Unit
  | [] => .ok ()
  | dep :: rest =>
    if names.any (fun k => beqValue (.str k) dep) then validateDepsInner names fname rest
    else .error (valueError ("Field \x27" ++ fname ++ "\x27 is missing dependency: \x27" ++ pystr dep ++ "\x27"))

/-- `DependencyResolver._validatedependencies()` (run by `__init__`). -/
def validatedependencies (fields : List (String × Field)) : Except PyErr Unit :=
  go (fields.map Prod.fst) fields
where
  go (names : List String) : List (String × Field) → Except PyErr Unit
    | [] => .ok ()
    | (name, f) :: rest =>
      if truthy f.conditional then
        match validateDepsInner names name (fieldDepsV f) with
        | .error e => .error e
        | .ok _ => go names rest
      else go names rest

/-- The edge list `dep → name` enumerated by `resolveorder`'s graph
building loops (`for name, field in fields: if conditional: for dep in
dependencies: …`), in iteration order. -/
def schemaEdges : List (String × Field) → List (String × String)
  | [] => []
  | (name, f) :: rest =>
    (if truthy f.conditional then (strDeps f).map (fun d => (d, name)) else []) ++ schemaEdges rest

/-- `degree[x]` (a `defaultdict(int)` lookup without key creation). -/
def degGet (deg : List (String × Int)) (x : String) : Int :=
  (List.lookup x deg).getD 0

/-- `degree[x] += 1` (the key always exists here: `x` is a field name). -/
def degIncr (deg : List (String × Int)) (x : String) : List (String × Int) :=
  deg.map (fun p => if p.1 == x then (p.1, p.2 + 1) else p)

/-- `degree[x] -= 1` on a `defaultdict(int)`: decrement the entry,
creating it at `-1` when absent. -/
def degDecr (deg : List (String × Int)) (x : String) : List (String × Int) :=
  match deg with
  | [] => [(x, -1)]
  | (k, d) :: rest => if k == x then (k, d - 1) :: rest else (k, d) :: degDecr rest x

/-- `graph[dep].append(name)` on a `defaultdict(list)`. -/
def graphAppend (g : List (String × List String)) (dep name : String) :
    List (String × List String) :=
  match g with
  | [] => [(dep, [name])]
  | (k, vs) :: rest =>
    if k == dep then (k, vs ++ [name]) :: rest else (k, vs) :: graphAppend rest dep name

/-- `graph[x]` (a `defaultdict(list)` read; absent ⇒ `[]`). -/
def graphGet (g : List (String × List String)) (x : String) : List String :=
  (List.lookup x g).getD []

/-- The graph/degree tables built by `resolveorder`: degrees initialised
to `0` for every field name in registry order, then one
`graph[dep].append(name); degree[name] += 1` per enumerated edge. -/
def buildGD (fields : List (String × Field)) :
    List (String × List String) × List (String × Int) :=
  (schemaEdges fields).foldl
    (fun gd e => (graphAppend gd.1 e.1 e.2, degIncr gd.2 e.2))
    ([], fields.map (fun p => (p.1, (0 : Int))))

/-- One neighbor step of Kahn's loop body: `degree[neighbor] -= 1; if
degree[neighbor] == 0: q.append(neighbor)`. -/
def processNeighbor (st : List String × List (String × Int)) (nb : String) :
    List String × List (String × Int) :=
  let deg1 := degDecr st.2 nb
  if degGet deg1 nb == 0 then (st.1 ++ [nb], deg1) else (st.1, deg1)

/-- The sum of the positive degrees: together with the queue length this
bounds the remaining iterations of Kahn's loop, so it serves as fuel. -/
def sumPos (deg : List (String × Int)) : Nat :=
  (deg.map (fun p => p.2.toNat)).sum

/-- Kahn's `while q:` loop (`q.popleft()`, process each neighbor, append
`current` to the result), with explicit fuel; the fuel never runs out
when it starts at `q.length + sumPos deg` (each iteration strictly
decreases that measure). -/
def kahnLoopF (g : List (String × List String)) :
    Nat → List String → List (String × Int) → List String → List String
  | 0, _, _, acc => acc
  | Nat.succ n, q, deg, acc =>
    match q with
    | [] => acc
    | current :: qrest =>
      let st := (graphGet g current).foldl processNeighbor (qrest, deg)
      kahnLoopF g n st.1 st.2 (acc ++ [current])

/-- `path[path.index(node):] + [node]` — the concrete cycle path
reported by `_detectcycle`'s DFS. -/
def pathFrom (path : List String) (node : String) : List String :=
  (path.drop (path.indexOf node)) ++ [node]

/-- The recursive `dfs(node, path)` of `DependencyResolver._detectcycle`,
threading the shared mutable `visited` and `stack` sets; the fuel is a
termination device only (the recursion depth is bounded by the number of
fields, since each recursing level adds an unvisited field name to
`visited`).  Once a child reports a cycle the remaining children are
skipped and the cycle propagates, exactly as Python's early `return`. -/
def dfsDetect (fields : List (String × Field)) :
    Nat → String → List String → List String → List String →
    Option (List String) × List String × List String
  | 0, _, _, visited, stack => (Option.none, visited, stack)
  | Nat.succ n, node, path, visited, stack =>
    if stack.contains node then (Option.some (pathFrom path node), visited, stack)
    else if visited.contains node then (Option.none, visited, stack)
    else
      let visited1 := node :: visited
      let stack1 := node :: stack
      let path1 := path ++ [node]
      match List.lookup node fields with
      | Option.none => (Option.none, visited1, stack1)
      | Option.some f =>
        let deps := if truthy f.conditional then strDeps f else []
        let st := deps.foldl
          (fun st dep =>
            match st with
            | (Option.some c, v, s) => (Option.some c, v, s)
            | (Option.none, v, s) => dfsDetect fields n dep path1 v s)
          (Option.none, visited1, stack1)
        match st with
        | (Option.some c, v2, s2) => (Option.some c, v2, s2)
        | (Option.none, v2, s2) => (Option.none, v2, s2.erase node)

/-- The outer loop of `DependencyResolver._detectcycle`: DFS from every
not-yet-visited field name, returning the first concrete cycle found
(`["unknown cycle"]` when none is found). -/
def detectcycle (fields : List (String × Field)) : List String :=
  go (fields.map Prod.fst) [] []
where
  go : List String → List String → List String → List String
    | [], _, _ => ["unknown cycle"]
    | name :: rest, visited, stack =>
      if visited.contains name then go rest visited stack
      else
        match dfsDetect fields (fields.length + 1) name [] visited stack with
        | (Option.some c, _, _) => c
        | (Option.none, v2, s2) => go rest v2 s2

/-- `DependencyResolver.resolveorder()`: build the graph and degrees,
seed the queue with the zero-degree nodes in field-mapping order, run
Kahn's loop; an incomplete result means a cycle, reported through
`_detectcycle` as `Circular dependency detected: a -> b -> a`. -/
def resolveorder (fields : List (String × Field)) : Except PyErr (List String) :=
  let gd := buildGD fields
  let q0 := (gd.2.filter (fun p => p.2 == 0)).map Prod.fst
  let result := kahnLoopF gd.1 (q0.length + sumPos gd.2) q0 gd.2 []
  if result.length ≠ fields.length then
    .error (valueError ("Circular dependency detected: " ++ String.intercalate " -> " (detectcycle fields)))
  else .ok result

/-! ## Concrete fixtures

Models of external collaborator callables (§6 of the spec: opaque
`transform` / `type` / condition evaluators), and small concrete schemas
used to evaluate the embedding. -/

/-- The collaborator `str.strip` restricted to space-stripping (enough
for the concrete inputs used here); a non-string argument raises. -/
def pyStrip : Value → Except PyErr Value
  | .str s =>
    .ok (.str (String.mk (((s.data.dropWhile (· == ' ')).reverse.dropWhile (· == ' ')).reverse)))
  | _ => .error ⟨"TypeError", "strip expects a str"⟩

/-- Digit-sequence parsing for the collaborator `int`. -/
def parseDigits : List Char → Option Nat
  | [] => Option.none
  | cs => go cs 0
where
  go : List Char → Nat → Option Nat
    | [], acc => Option.some acc
    | c :: cs, acc =>
      if c.isDigit then go cs (acc * 10 + (c.toNat - 48)) else Option.none

/-- The collaborator `int(x)`: integers pass, booleans coerce, strings
parse after stripping surrounding spaces (raising `ValueError` on a
non-numeral), anything else raises `TypeError`. -/
def pyIntCast : Value → Except PyErr Value
  | .int n => .ok (.int n)
  | .bool b => .ok (.int (if b then 1 else 0))
  | .str s =>
    match parseDigits (((s.data.dropWhile (· == ' ')).reverse.dropWhile (· == ' ')).reverse) with
    | Option.some n => .ok (.int (n : Int))
    | Option.none => .error (valueError ("invalid literal for int() with base 10: " ++ strQuote s))
  | _ => .error ⟨"TypeError", "int() argument must be a string or a number"⟩

/-- A concrete environment: callable `0` is the `category_id` condition
evaluator of `tests/test_conditional_fields.py`
(`lambda gender, category: f"{gender}_{category}_001"`), `1` is
`str.strip`, `2` is `int`. -/
def demoEnv : Env := fun i args =>
  match i, args with
  | 0, [g, c] => .ok (.str (pystr g ++ "_" ++ pystr c ++ "_001"))
  | 1, [v] => pyStrip v
  | 2, [v] => pyIntCast v
  | 3, _ => .ok (.str "other")
  | _, _ => .error ⟨"TypeError", "unexpected call"⟩

/-- The conditional `category_id` field of
`tests/test_conditional_fields.py::test_basic_conditional_field`. -/
def categoryIdField : Field :=
  { name := .str "category_id"
    conditional := .bool true
    dependencies := .list [.str "gender", .str "category"]
    conditions := .dict [(.str "value", .fn 0)] }

/-- The registry of `test_basic_conditional_field`'s `TestSchema`:
two transient source fields and a conditional field depending on them. -/
def basicCondFields : List (String × Field) :=
  [("gender", { name := .str "gender", source := .str "gender", transient := .bool true }),
   ("category", { name := .str "category", source := .str "category", transient := .bool true }),
   ("category_id", categoryIdField)]

/-- The input of `test_basic_conditional_field`. -/
def basicCondData : Value :=
  .dict [(.str "gender", .str "men"), (.str "category", .str "shoes")]

/-! ## Claims -/

/-- C1.  The claim: `Schema.transform(data)` first computes a
dependency-safe execution order, maintains a `computed` accumulator of
already-resolved field values, and calls each field's
`extract(data, computed)` in that order, so that conditional fields
receive the values they depend on.  The code does none of this:
`Schema.transform` iterates the registry in declaration order and calls
`extract(data)` with no `computed` argument (and never consults
`DependencyResolver`), so the very schema of the repository's own test
`test_basic_conditional_field` — which the claim and the test expect to
produce `category_id = "men_shoes_001"` — instead fails with
`Conditional field 'category_id' requires computed (fields)`. -/
theorem schemaTransform_drops_computed_c1 :
    schemaTransform demoEnv basicCondFields basicCondData =
      .error ⟨"ValueError",
        "Schema transformation failed on field \x27category_id\x27: Conditional field \x27category_id\x27 requires computed (fields)"⟩ ∧
    Field.extract demoEnv categoryIdField basicCondData
        (Option.some [(.str "gender", .str "men"), (.str "category", .str "shoes")]) =
      .ok (.str "men_shoes_001") := by
  exact ⟨rfl, rfl⟩

/-- The leaf field of C4's concrete instance:
`transform=str.strip, type=int, choices=[1,2,3]`, source `x`. -/
def c4Field : Field :=
  { name := .str "v"
    source := .str "x"
    transform := .fn 1
    type := .fn 2
    choices := .list [.int 1, .int 2, .int 3] }

/-- C4.  For every non-conditional leaf field, `extract` applies the
pipeline stages in the fixed order raw-retrieval → transform →
type-cast → mapping → choice-check → custom-validate → required-check,
each stage receiving the previous stage's output (the bind chain below);
in particular the field with `transform=str.strip`, `type=int`,
`choices=[1,2,3]` extracts raw `"  3  "` to `3`. -/
theorem extract_stage_order_c4 :
    (∀ (env : Env) (f : Field) (data : Value) (computed : Option (List (Value × Value))),
      truthy f.conditional = false →
      Field.extract env f data computed =
        (getsourcevalue f data >>= fun raw =>
         applytransform env f raw >>= fun transformed =>
         applytype env f transformed >>= fun typed =>
         applymapping env f typed >>= fun mapped =>
         validatechoices f mapped >>= fun choicesvalidated =>
         checkrequired f (validateHook f choicesvalidated) >>= fun _ =>
         .ok (validateHook f choicesvalidated))) ∧
    Field.extract demoEnv c4Field (.dict [(.str "x", .str "  3  ")]) Option.none =
      .ok (.int 3) := by
  constructor
  · intro env f data computed h
    simp only [Field.extract, extractFull, h]
    rfl
  · rfl

/-- Witness for C4: the stage-order equation instantiated at the
concrete field of the claim. -/
theorem extract_stage_order_c4_witness :
    Field.extract demoEnv c4Field (.dict [(.str "x", .str "  3  ")]) Option.none =
      (getsourcevalue c4Field (.dict [(.str "x", .str "  3  ")]) >>= fun raw =>
       applytransform demoEnv c4Field raw >>= fun transformed =>
       applytype demoEnv c4Field transformed >>= fun typed =>
       applymapping demoEnv c4Field typed >>= fun mapped =>
       validatechoices c4Field mapped >>= fun choicesvalidated =>
       checkrequired c4Field (validateHook c4Field choicesvalidated) >>= fun _ =>
       .ok (validateHook c4Field choicesvalidated)) :=
  extract_stage_order_c4.1 demoEnv c4Field (.dict [(.str "x", .str "  3  ")]) Option.none rfl

/-- A child that always raises (a required field over data missing it). -/
def failingRequiredChild : ChildF :=
  { name := .str "p", required := .bool true,
    extract := fun _ => .error (valueError "(p) required field is missing or None") }

/-- A child whose extraction yields `None`. -/
def noneChild : ChildF :=
  { name := .str "fb", extract := fun _ => .ok .none }

/-- C9.  If the primary child of a `FallbackField` raises any exception
whatsoever, `extract` returns exactly the fallback child's extraction
result, with no required check applied to it: concretely, a
`FallbackField` built from a required primary answers `None` (rather
than raising) when the primary fails and the fallback yields `None`. -/
theorem fallback_error_delegates_c9 :
    (∀ (fb : FallbackField) (data : Value) (e : PyErr),
      fb.primary.extract data = .error e →
      fallbackExtract fb data = fb.fallback.extract data) ∧
    fallbackExtract { primary := failingRequiredChild, fallback := noneChild } (.dict []) =
      .ok .none := by
  constructor
  · intro fb data e h
    simp only [fallbackExtract, h]
  · rfl

/-- Witness for C9: the delegation equation instantiated at a concrete
failing required primary. -/
theorem fallback_error_delegates_c9_witness :
    fallbackExtract { primary := failingRequiredChild, fallback := noneChild } (.dict []) =
      ChildF.extract noneChild (.dict []) :=
  fallback_error_delegates_c9.1
    { primary := failingRequiredChild, fallback := noneChild } (.dict [])
    (valueError "(p) required field is missing or None") rfl

/-- C8.  `AccumulatedField.extract` combines the collected non-`None`
child values by a left fold of `_combinevalues`, where dict+dict
shallow-merges with the right side winning, list+list concatenates,
number+number adds, and str+str joins with the separator; the spec's
concrete examples are each verified. -/
theorem accumulate_combine_rules_c8 :
    (∀ (af : AccumulatedField) (data : Value) (v : Value) (vs : List Value),
      collectValues data af.fields = .ok (v :: vs) →
      accExtract af data = .ok (vs.foldl (combinevalues af.separator) v)) ∧
    (∀ (d : Value) (sep : String) (v : Value) (vs : List Value),
      accumulatevalues d sep (v :: vs) = vs.foldl (combinevalues sep) v) ∧
    (∀ (sep : String) (a b : List (Value × Value)),
      combinevalues sep (.dict a) (.dict b) = .dict (dictUpdate a b)) ∧
    (∀ (sep : String) (a b : List Value),
      combinevalues sep (.list a) (.list b) = .list (a ++ b)) ∧
    (∀ (sep : String) (m n : Int),
      combinevalues sep (.int m) (.int n) = .int (m + n)) ∧
    (∀ (sep a b : String),
      combinevalues sep (.str a) (.str b) = .str (a ++ sep ++ b)) ∧
    combinevalues " " (.list [.int 1, .int 2]) (.list [.int 3, .int 4]) =
      .list [.int 1, .int 2, .int 3, .int 4] ∧
    combinevalues " " (.dict [(.str "a", .int 1)]) (.dict [(.str "b", .int 2)]) =
      .dict [(.str "a", .int 1), (.str "b", .int 2)] ∧
    combinevalues " " (.dict [(.str "a", .int 1)]) (.dict [(.str "a", .int 2)]) =
      .dict [(.str "a", .int 2)] ∧
    combinevalues " " (.str "x") (.str "y") = .str "x y" ∧
    combinevalues " " (.int 1) (.int 2) = .int 3 := by
  refine ⟨?_, ?_, ?_, ?_, ?_, ?_, rfl, rfl, rfl, rfl, rfl⟩
  · intro af data v vs h
    simp only [accExtract, h, List.isEmpty_cons, Bool.false_eq_true, if_false,
      accumulatevalues]
    cases vs <;> rfl
  · intro d sep v vs
    cases vs <;> rfl
  · intro sep a b; rfl
  · intro sep a b; rfl
  · intro sep m n; rfl
  · intro sep a b; rfl

/-- Witness for C8: the fold equation instantiated at a concrete
two-child accumulation (`[1,2] + [3,4]`). -/
theorem accumulate_combine_rules_c8_witness :
    accExtract
      { fields := [{ name := .str "l", extract := fun _ => .ok (.list [.int 1, .int 2]) },
                   { name := .str "r", extract := fun _ => .ok (.list [.int 3, .int 4]) }],
        separator := " " } (.dict []) =
      .ok ([Value.list [.int 3, .int 4]].foldl (combinevalues " ") (.list [.int 1, .int 2])) :=
  accumulate_combine_rules_c8.1
    { fields := [{ name := .str "l", extract := fun _ => .ok (.list [.int 1, .int 2]) },
                 { name := .str "r", extract := fun _ => .ok (.list [.int 3, .int 4]) }],
      separator := " " }
    (.dict []) (.list [.int 1, .int 2]) [.list [.int 3, .int 4]] rfl

/-! ### C5: scoped overrides -/

/-- A condition key belonging to the saved-and-restored attribute set of
`Field._extractwithoverrides` (`required`, `default`, `transform`,
`choices`, `type`, `mapping`). -/
def savedKeyP (k : Value) : Prop :=
  k = .str "required" ∨ k = .str "default" ∨ k = .str "transform" ∨
  k = .str "choices" ∨ k = .str "type" ∨ k = .str "mapping"

/-- Applying overrides whose keys all lie in the saved set leaves the
ten attributes outside that set untouched. -/
theorem applyOverrides_saved_frame (ov : List (Value × Value))
    (h : ∀ kv ∈ ov, savedKeyP kv.1) (f : Field) :
    (applyOverrides f ov).name = f.name ∧
    (applyOverrides f ov).source = f.source ∧
    (applyOverrides f ov).target = f.target ∧
    (applyOverrides f ov).mapper = f.mapper ∧
    (applyOverrides f ov).keysaschoices = f.keysaschoices ∧
    (applyOverrides f ov).valuesaschoices = f.valuesaschoices ∧
    (applyOverrides f ov).transient = f.transient ∧
    (applyOverrides f ov).conditional = f.conditional ∧
    (applyOverrides f ov).dependencies = f.dependencies ∧
    (applyOverrides f ov).conditions = f.conditions := by
  induction ov generalizing f with
  | nil => exact ⟨rfl, rfl, rfl, rfl, rfl, rfl, rfl, rfl, rfl, rfl⟩
  | cons kv rest ih =>
    have hk := h kv (List.mem_cons_self kv rest)
    have hrest : ∀ p ∈ rest, savedKeyP p.1 := fun p hp => h p (List.mem_cons_of_mem kv hp)
    obtain ⟨k, v⟩ := kv
    rcases hk with hk | hk | hk | hk | hk | hk <;>
      (subst hk; simpa [applyOverrides, setattrV, hasattrF] using ih hrest _)

/-- Restoring the six saved attributes of `g` from `f` recovers `f`
entirely as soon as the remaining ten attributes of `g` agree with `f`. -/
theorem restoreprops_recovers (g f : Field)
    (h1 : g.name = f.name) (h2 : g.source = f.source) (h3 : g.target = f.target)
    (h4 : g.mapper = f.mapper) (h5 : g.keysaschoices = f.keysaschoices)
    (h6 : g.valuesaschoices = f.valuesaschoices) (h7 : g.transient = f.transient)
    (h8 : g.conditional = f.conditional) (h9 : g.dependencies = f.dependencies)
    (h10 : g.conditions = f.conditions) :
    restoreprops g f = f := by
  cases g; cases f
  simp_all [restoreprops]

/-- The conditional field of the C5 counterexample: its single condition
overrides the `source` attribute (a key outside the saved set). -/
def overrideSourceField : Field :=
  { name := .str "k"
    source := .str "orig"
    conditional := .bool true
    dependencies := .list [.str "a"]
    conditions := .dict [(.str "source", .fn 3)] }

/-- Counterexample to C5: extracting `overrideSourceField` (whose
evaluated conditions contain no `value` key, only a `source` override)
SUCCEEDS, yet afterwards the field's `source` attribute is `"other"`
instead of its pre-call value `"orig"` — the override loop `setattr`s
every attribute-named key, while the `finally` block restores only
`required`, `default`, `transform`, `choices`, `type` and `mapping`. -/
theorem conditional_override_not_restored_c5 :
    (extractFull demoEnv overrideSourceField (.dict [])
        (Option.some [(.str "a", .int 1)])).1 = .ok .none ∧
    (extractFull demoEnv overrideSourceField (.dict [])
        (Option.some [(.str "a", .int 1)])).2.source = .str "other" ∧
    overrideSourceField.source = .str "orig" := by
  exact ⟨rfl, rfl, rfl⟩

/-- C5 (amended).  After `_extractwithoverrides` returns or raises, the
six snapshotted attributes (`required`, `default`, `transform`,
`choices`, `type`, `mapping`) always equal their pre-call values
(exception-safe scoped override); and when every override key lies in
that saved set, the whole field equals its pre-call value.  (Overrides
of other attributes, such as `source`, persist after the call — the
counterexample above.) -/
theorem conditional_override_restores_saved_c5 :
    (∀ (env : Env) (f : Field) (data : Value) (ov : List (Value × Value)),
      (extractwithoverrides env f data ov).2.required = f.required ∧
      (extractwithoverrides env f data ov).2.default = f.default ∧
      (extractwithoverrides env f data ov).2.transform = f.transform ∧
      (extractwithoverrides env f data ov).2.choices = f.choices ∧
      (extractwithoverrides env f data ov).2.type = f.type ∧
      (extractwithoverrides env f data ov).2.mapping = f.mapping) ∧
    (∀ (env : Env) (f : Field) (data : Value) (ov : List (Value × Value)),
      (∀ kv ∈ ov, savedKeyP kv.1) →
      (extractwithoverrides env f data ov).2 = f) := by
  constructor
  · intro env f data ov
    exact ⟨rfl, rfl, rfl, rfl, rfl, rfl⟩
  · intro env f data ov h
    obtain ⟨h1, h2, h3, h4, h5, h6, h7, h8, h9, h10⟩ := applyOverrides_saved_frame ov h f
    exact restoreprops_recovers _ _ h1 h2 h3 h4 h5 h6 h7 h8 h9 h10

/-- Witness for C5 (amended): a concrete override of `required` (a saved
key) leaves the field exactly as before the call. -/
theorem conditional_override_restores_saved_c5_witness :
    (extractwithoverrides demoEnv overrideSourceField (.dict [])
        [(.str "required", .bool true)]).2 = overrideSourceField :=
  conditional_override_restores_saved_c5.2 demoEnv overrideSourceField (.dict [])
    [(.str "required", .bool true)]
    (by intro kv hkv; simp only [List.mem_singleton] at hkv; subst hkv; exact Or.inl rfl)

/-! ### C6: composite failure semantics -/

/-- The error messages `CombinedField.extract` collects: one message per
required child whose extraction raises, over the WHOLE child list. -/
def combinedErrs (data : Value) (cs : List ChildF) : List String :=
  cs.filterMap (fun c =>
    match c.extract data with
    | .error e =>
      if truthy c.required then
        Option.some ("Required field \x27" ++ pystr c.name ++ "\x27 failed: " ++ e.msg)
      else Option.none
    | .ok _ => Option.none)

/-- The error component of `combinedLoop` is exactly the incoming errors
followed by `combinedErrs` of the remaining children — every child is
consulted, regardless of earlier failures. -/
theorem combinedLoop_errs (data : Value) :
    ∀ (cs : List ChildF) (r : List (Value × Value)) (e : List String),
      (combinedLoop data cs r e).2 = e ++ combinedErrs data cs := by
  intro cs
  induction cs with
  | nil => intro r e; simp [combinedLoop, combinedErrs]
  | cons c rest ih =>
    intro r e
    simp only [combinedLoop, combinedErrs, List.filterMap_cons]
    cases h : c.extract data with
    | ok v =>
      by_cases hn : truthy c.name
      · by_cases h2 : !(isNone v) || truthy c.required
        · simp [hn, h2, ih, combinedErrs]
        · simp [hn, h2, ih, combinedErrs]
      · cases v <;> simp [hn, ih, combinedErrs]
    | error er =>
      by_cases hr : truthy c.required
      · simp [hr, ih, combinedErrs]
      · simp [hr, ih, combinedErrs]

/-- C6.  When required children fail during composite extraction:
`CombinedField.extract` runs every child and raises one aggregate error
joining the message of every failed required child (first conjunct),
while `AccumulatedField.extract` raises at the first failed required
child, whatever children follow it (second conjunct); a failing
non-required child is skipped by both loops, leaving the accumulated
state untouched (third and fourth conjuncts). -/
theorem composite_failure_modes_c6 :
    (∀ (cf : CombinedField) (data : Value),
      combinedErrs data cf.fields ≠ [] →
      combinedExtract cf data =
        .error (valueError ("CombinedField extraction failed: " ++
          String.intercalate "; " (combinedErrs data cf.fields)))) ∧
    (∀ (pre post : List ChildF) (c : ChildF) (sep : String) (nm : Value)
       (data : Value) (e : PyErr),
      (∀ f ∈ pre, ∀ e2, f.extract data = .error e2 → truthy f.required = false) →
      truthy c.required = true →
      c.extract data = .error e →
      accExtract { fields := pre ++ c :: post, separator := sep, name := nm } data =
        .error (valueError ("Required field \x27" ++ pystr c.name ++
          "\x27 failed in accumulation: " ++ e.msg))) ∧
    (∀ (data : Value) (bad : ChildF) (rest : List ChildF)
       (r : List (Value × Value)) (e : List String) (e2 : PyErr),
      bad.extract data = .error e2 → truthy bad.required = false →
      combinedLoop data (bad :: rest) r e = combinedLoop data rest r e) ∧
    (∀ (data : Value) (bad : ChildF) (rest : List ChildF) (e2 : PyErr),
      bad.extract data = .error e2 → truthy bad.required = false →
      collectValues data (bad :: rest) = collectValues data rest) := by
  refine ⟨?_, ?_, ?_, ?_⟩
  · intro cf data hne
    have h2 : (combinedLoop data cf.fields [] []).2 = combinedErrs data cf.fields := by
      simpa using combinedLoop_errs data cf.fields [] []
    unfold combinedExtract
    rcases hL : combinedLoop data cf.fields [] [] with ⟨r0, e0⟩
    rw [hL] at h2
    cases e0 with
    | nil => exact absurd h2.symm hne
    | cons x xs =>
      have h3 : x :: xs = combinedErrs data cf.fields := h2
      rw [← h3]
  · intro pre post c sep nm data e hpre hreq herr
    have hcoll : collectValues data (pre ++ c :: post) =
        .error (valueError ("Required field \x27" ++ pystr c.name ++
          "\x27 failed in accumulation: " ++ e.msg)) := by
      induction pre with
      | nil => simp [collectValues, herr, hreq]
      | cons f rest ih =>
        have hf := hpre f (List.mem_cons_self f rest)
        have hrest : ∀ g ∈ rest, ∀ e2, g.extract data = .error e2 → truthy g.required = false :=
          fun g hg => hpre g (List.mem_cons_of_mem f hg)
        have ihr := ih hrest
        cases hx : f.extract data with
        | error e2 => simp [collectValues, hx, hf e2 hx, ihr]
        | ok v =>
          by_cases hn : isNone v
          · simp [collectValues, hx, hn, ihr]
          · simp only [List.cons_append, collectValues, hx, hn, Bool.false_eq_true,
              if_false, List.append_eq, ihr]
            rfl
    simp [accExtract, hcoll]
  · intro data bad rest r e e2 herr hreq
    simp [combinedLoop, herr, hreq]
  · intro data bad rest e2 herr hreq
    simp [collectValues, herr, hreq]

/-- Witness for C6: two failing required children — `CombinedField`
aggregates both messages, `AccumulatedField` raises on the first alone,
whatever follows it. -/
theorem composite_failure_modes_c6_witness :
    accExtract
      { fields := [] ++ { name := Value.str "a", required := .bool true,
                          extract := fun _ => .error (valueError "boom") } ::
                  [{ name := Value.str "b", required := .bool true,
                     extract := fun _ => .error (valueError "bam") }],
        separator := " ", name := Value.none } (.dict []) =
      .error (valueError ("Required field \x27" ++ pystr (Value.str "a") ++
        "\x27 failed in accumulation: " ++ (valueError "boom").msg)) :=
  composite_failure_modes_c6.2.1 []
    [{ name := Value.str "b", required := .bool true,
       extract := fun _ => .error (valueError "bam") }]
    { name := Value.str "a", required := .bool true,
      extract := fun _ => .error (valueError "boom") }
    " " Value.none (.dict []) (valueError "boom")
    (by intro f hf; cases hf) rfl rfl

/-! ### C10: unnamed children of `CombinedField` -/

/-- `isinstance(v, dict)`. -/
def isDictV : Value → Bool
  | .dict _ => true
  | _ => false

/-- The child loop distributes over list append: the tail children start
from the state the leading children accumulated. -/
theorem combinedLoop_append (data : Value) :
    ∀ (pre post : List ChildF) (r : List (Value × Value)) (e : List String),
      combinedLoop data (pre ++ post) r e =
        combinedLoop data post (combinedLoop data pre r e).1 (combinedLoop data pre r e).2 := by
  intro pre
  induction pre with
  | nil => intro post r e; rfl
  | cons c rest ih =>
    intro post r e
    simp only [List.cons_append, combinedLoop]
    cases h : c.extract data with
    | ok v =>
      by_cases hn : truthy c.name
      · by_cases h2 : !(isNone v) || truthy c.required
        · simp [hn, h2, ih]
        · simp [hn, h2, ih]
      · cases v <;> simp [hn, ih]
    | error er =>
      by_cases hr : truthy c.required
      · simp [hr, ih]
      · simp [hr, ih]

/-- C10.  In `CombinedField.extract`, a successfully extracted child
whose name is unset contributes as follows: a dict value has its entries
merged into the accumulated result (`result.update`, overwriting
colliding keys); any other value is stored under `"field<k>"` where `k`
is the number of entries already accumulated at that moment (first three
conjuncts).  Concretely, after an unnamed child merged a two-entry dict,
the unnamed scalar child at list position 1 is keyed `"field2"` (last
conjunct). -/
theorem combined_unnamed_child_keys_c10 :
    (∀ (data : Value) (pre post : List ChildF) (r : List (Value × Value)) (e : List String),
      combinedLoop data (pre ++ post) r e =
        combinedLoop data post (combinedLoop data pre r e).1 (combinedLoop data pre r e).2) ∧
    (∀ (data : Value) (c : ChildF) (v : Value) (r : List (Value × Value)) (e : List String),
      truthy c.name = false → c.extract data = .ok v → isDictV v = false →
      combinedLoop data [c] r e =
        (dictSet r (.str ("field" ++ toString r.length)) v, e)) ∧
    (∀ (data : Value) (c : ChildF) (kvs : List (Value × Value))
       (r : List (Value × Value)) (e : List String),
      truthy c.name = false → c.extract data = .ok (.dict kvs) →
      combinedLoop data [c] r e = (dictUpdate r kvs, e)) ∧
    combinedExtract
      { fields := [{ extract := fun _ => .ok (.dict [(.str "a", .int 1), (.str "b", .int 2)]) },
                   { extract := fun _ => .ok (.int 5) }] } (.dict []) =
      .ok (.dict [(.str "a", .int 1), (.str "b", .int 2), (.str "field2", .int 5)]) := by
  refine ⟨combinedLoop_append, ?_, ?_, rfl⟩
  · intro data c v r e hn hx hd
    cases v <;> simp_all [combinedLoop, isDictV]
  · intro data c kvs r e hn hx
    simp [combinedLoop, hx, hn]

/-- Witness for C10: the unnamed non-dict step applied to a result that
already holds two entries — the key is `"field2"`, independent of the
child's position. -/
theorem combined_unnamed_child_keys_c10_witness :
    combinedLoop (.dict []) [{ extract := fun _ => .ok (.int 5) }]
        [(.str "a", .int 1), (.str "b", .int 2)] [] =
      (dictSet [(.str "a", .int 1), (.str "b", .int 2)]
        (.str ("field" ++ toString ([(Value.str "a", Value.int 1), (Value.str "b", Value.int 2)]).length))
        (.int 5), []) :=
  combined_unnamed_child_keys_c10.2.1 (.dict [])
    { extract := fun _ => .ok (.int 5) } (.int 5)
    [(.str "a", .int 1), (.str "b", .int 2)] [] rfl rfl rfl

/-! ### C2: attribute preservation under `Schema.bind` -/

/-- A field carrying every non-core attribute, to be bound through a
mapping entry. -/
def richField : Field :=
  { name := .str "f"
    source := .str "s0"
    target := .str "t"
    required := .bool true
    default := .int 7
    type := .fn 2
    choices := .list [.int 1]
    mapping := .dict [(.str "m", .int 1)]
    mapper := .fn 1
    keysaschoices := .bool false
    valuesaschoices := .bool true
    transient := .bool true }

/-- Counterexample to C2: binding `richField` through the string mapping
entry `"s2"` produces a field whose `target`, `choices` and `transient`
(and likewise `type`, `mapping`, `mapper`, …) are the constructor
defaults, NOT the original field's values — `_bindfield` rebuilds the
field passing only `name`, `source`, `transform`, `required`,
`default`. -/
theorem bindfield_drops_attributes_c2 :
    bindfield [("f", Value.str "s2")] richField "f" =
      .ok (rebindField richField (.str "s2") richField.transform) ∧
    (rebindField richField (.str "s2") richField.transform).target ≠ richField.target ∧
    (rebindField richField (.str "s2") richField.transform).target = .none ∧
    richField.target = .str "t" ∧
    (rebindField richField (.str "s2") richField.transform).choices = .none ∧
    richField.choices = .list [.int 1] ∧
    (rebindField richField (.str "s2") richField.transform).transient = .bool false ∧
    richField.transient = .bool true := by
  exact ⟨rfl, fun h => Value.noConfusion h, rfl, rfl, rfl, rfl, rfl, rfl⟩

/-- C2 (amended).  `_bindfield` substitutes `source`/`transform` per the
mapping entry (string ⇒ new source, 2-tuple ⇒ new source and transform,
callable ⇒ new transform) and preserves exactly `name`, `required` and
`default`; every other attribute of the bound field (`target`, `type`,
`choices`, `mapping`, `mapper`, `keysaschoices`, `valuesaschoices`,
`transient`, `conditional`, `dependencies`, `conditions`) is reset to
its constructor default.  A field whose name is absent from the mapping
is passed through unchanged (binding constructs new fields and never
mutates the original). -/
theorem bindfield_substitution_c2 :
    (∀ (mapping : List (String × Value)) (f : Field) (name : String),
      List.lookup name mapping = Option.none →
      bindfield mapping f name = .ok f) ∧
    (∀ (mapping : List (String × Value)) (f : Field) (name : String) (s : String),
      (List.lookup name mapping).getD Value.none = .str s →
      bindfield mapping f name = .ok (rebindField f (.str s) f.transform)) ∧
    (∀ (mapping : List (String × Value)) (f : Field) (name : String) (a b : Value),
      (List.lookup name mapping).getD Value.none = .tuple [a, b] →
      bindfield mapping f name = .ok (rebindField f a b)) ∧
    (∀ (mapping : List (String × Value)) (f : Field) (name : String) (i : Nat),
      (List.lookup name mapping).getD Value.none = .fn i →
      bindfield mapping f name = .ok (rebindField f f.source (.fn i))) ∧
    (∀ (f : Field) (ns nt : Value),
      (rebindField f ns nt).name = f.name ∧
      (rebindField f ns nt).required = f.required ∧
      (rebindField f ns nt).default = f.default ∧
      (rebindField f ns nt).source = ns ∧
      (rebindField f ns nt).transform = nt ∧
      (rebindField f ns nt).target = .none ∧
      (rebindField f ns nt).type = .none ∧
      (rebindField f ns nt).choices = .none ∧
      (rebindField f ns nt).mapping = .none ∧
      (rebindField f ns nt).mapper = .none ∧
      (rebindField f ns nt).keysaschoices = .bool true ∧
      (rebindField f ns nt).valuesaschoices = .bool false ∧
      (rebindField f ns nt).transient = .bool false ∧
      (rebindField f ns nt).conditional = .bool false ∧
      (rebindField f ns nt).dependencies = .none ∧
      (rebindField f ns nt).conditions = .none) := by
  refine ⟨?_, ?_, ?_, ?_, ?_⟩
  · intro mapping f name h
    simp [bindfield, h]
  · intro mapping f name s h
    simp [bindfield, h]
  · intro mapping f name a b h
    simp [bindfield, h]
  · intro mapping f name i h
    simp [bindfield, h]
  · intro f ns nt
    exact ⟨rfl, rfl, rfl, rfl, rfl, rfl, rfl, rfl, rfl, rfl, rfl, rfl, rfl, rfl, rfl, rfl⟩

/-- Witness for C2 (amended): the string-entry substitution applied to
the concrete `richField`. -/
theorem bindfield_substitution_c2_witness :
    bindfield [("f", Value.str "s2")] richField "f" =
      .ok (rebindField richField (.str "s2") richField.transform) :=
  bindfield_substitution_c2.2.1 [("f", Value.str "s2")] richField "f" "s2" rfl

/-! ### C7: binding with an empty mapping -/

/-- Binding through an empty mapping passes every field through
unchanged (`mapping.get(name)` is `None` for every name). -/
theorem bindfields_empty (fields : List (String × Field)) :
    bindfields [] fields = .ok fields := by
  induction fields with
  | nil => rfl
  | cons p rest ih =>
    obtain ⟨name, f⟩ := p
    simp [bindfields, bindfield, ih]

/-- C7.  Whenever `Schema.transform(data)` succeeds,
`schema.bind({}).transform(data)` returns the same result map: an empty
mapping binds every field to itself, and both transforms run the same
per-field extraction in the same registry order (they differ only in the
message they wrap around a failure). -/
theorem bind_empty_roundtrip_c7 :
    ∀ (env : Env) (fields : List (String × Field)) (data : Value)
      (r : List (Value × Value)),
      schemaTransform env fields data = .ok r →
      boundSchemaTransform env fields [] data = .ok r := by
  intro env fields data r h
  have hb : boundSchemaTransform env fields [] data = boundLoop env data fields := by
    simp [boundSchemaTransform, bindfields_empty]
  rw [hb]
  clear hb
  induction fields generalizing r with
  | nil =>
    simp only [schemaTransform] at h
    cases h
    rfl
  | cons p rest ih =>
    obtain ⟨name, f⟩ := p
    simp only [schemaTransform] at h
    cases hx : Field.extract env f data Option.none with
    | error e => rw [hx] at h; cases h
    | ok v =>
      rw [hx] at h
      cases hrest : schemaTransform env rest data with
      | error e => rw [hrest] at h; cases h
      | ok rr =>
        rw [hrest] at h
        cases h
        simp [boundLoop, hx, ih rr hrest]

/-- The end-to-end schema of spec §8 (`id` from `user_id`, required
`email` from `email_addr`). -/
def endToEndFields : List (String × Field) :=
  [("id", { name := .str "id", source := .str "user_id" }),
   ("email", { name := .str "email", source := .str "email_addr", required := .bool true })]

/-- Witness for C7: the round trip at the spec's end-to-end example. -/
theorem bind_empty_roundtrip_c7_witness :
    boundSchemaTransform demoEnv endToEndFields []
        (.dict [(.str "user_id", .int 123), (.str "email_addr", .str "a@b.com")]) =
      .ok [(.str "id", .int 123), (.str "email", .str "a@b.com")] :=
  bind_empty_roundtrip_c7 demoEnv endToEndFields
    (.dict [(.str "user_id", .int 123), (.str "email_addr", .str "a@b.com")])
    [(.str "id", .int 123), (.str "email", .str "a@b.com")] rfl

/-! ### C3: the dependency resolver

Analysis of Kahn's loop.  `decrAll`/`enqList` characterize what one loop
iteration does to the degree table and the queue; the `KInv` invariant
ties the loop state to the edge list; the final theorem derives the
topological-order guarantee for acyclic inputs and evaluates the cyclic
example. -/

/-- All the decrements one popped node performs on its neighbors. -/
def decrAll (deg : List (String × Int)) (nbs : List String) : List (String × Int) :=
  nbs.foldl degDecr deg

/-- The nodes a popped node enqueues: those whose degree reaches exactly
`0` during its neighbor decrements. -/
def enqList (deg : List (String × Int)) : List String → List String
  | [] => []
  | nb :: rest =>
    (if degGet (degDecr deg nb) nb == 0 then [nb] else []) ++ enqList (degDecr deg nb) rest

theorem degGet_nil (x : String) : degGet [] x = 0 := rfl

theorem degGet_cons (k : String) (d : Int) (rest : List (String × Int)) (x : String) :
    degGet ((k, d) :: rest) x = if x = k then d else degGet rest x := by
  by_cases h : x = k
  · subst h; simp [degGet, List.lookup]
  · have hb : (x == k) = false := beq_eq_false_iff_ne.mpr h
    simp [degGet, List.lookup, hb, h]

theorem degDecr_cons (k : String) (d : Int) (rest : List (String × Int)) (y : String) :
    degDecr ((k, d) :: rest) y =
      if k = y then (k, d - 1) :: rest else (k, d) :: degDecr rest y := by
  by_cases h : k = y
  · simp [degDecr, h]
  · have hb : (k == y) = false := beq_eq_false_iff_ne.mpr h
    simp [degDecr, hb, h]

theorem sumPos_nil : sumPos [] = 0 := rfl

theorem sumPos_cons (k : String) (d : Int) (rest : List (String × Int)) :
    sumPos ((k, d) :: rest) = d.toNat + sumPos rest := rfl

theorem degGet_degDecr (deg : List (String × Int)) (y x : String) :
    degGet (degDecr deg y) x = if x = y then degGet deg x - 1 else degGet deg x := by
  induction deg with
  | nil =>
    show degGet [(y, -1)] x = _
    by_cases h : x = y <;> simp [degGet_cons, degGet_nil, h]
  | cons p rest ih =>
    obtain ⟨k, d⟩ := p
    rw [degDecr_cons]
    by_cases hk : k = y
    · subst hk
      rw [if_pos rfl]
      by_cases hx : x = k <;> simp [degGet_cons, hx]
    · rw [if_neg hk]
      by_cases hx : x = k
      · subst hx
        have : ¬x = y := fun h => hk (h ▸ rfl)
        simp [degGet_cons, this]
      · simp [degGet_cons, hx, ih]

theorem degGet_decrAll (nbs : List String) :
    ∀ (deg : List (String × Int)) (x : String),
      degGet (decrAll deg nbs) x = degGet deg x - (nbs.count x : Int) := by
  induction nbs with
  | nil => intro deg x; simp [decrAll]
  | cons nb rest ih =>
    intro deg x
    have : decrAll deg (nb :: rest) = decrAll (degDecr deg nb) rest := rfl
    rw [this, ih, degGet_degDecr]
    by_cases h : x = nb
    · subst h; simp [List.count_cons]; omega
    · simp [List.count_cons, h, (by simpa [eq_comm] using h : ¬nb = x)]

theorem sumPos_degDecr (deg : List (String × Int)) (nb : String) :
    sumPos (degDecr deg nb) + (if 0 < degGet deg nb then 1 else 0) = sumPos deg := by
  induction deg with
  | nil =>
    show sumPos [(nb, -1)] + _ = _
    simp [sumPos_cons, sumPos_nil, degGet_nil]
  | cons p rest ih =>
    obtain ⟨k, d⟩ := p
    rw [degDecr_cons]
    by_cases hk : k = nb
    · subst hk
      rw [if_pos rfl, sumPos_cons, sumPos_cons]
      have h1 : degGet ((k, d) :: rest) k = d := by rw [degGet_cons, if_pos rfl]
      rw [h1]
      split_ifs <;> omega
    · have hk2 : ¬nb = k := fun h => hk (h ▸ rfl)
      rw [if_neg hk, sumPos_cons, sumPos_cons]
      have h1 : degGet ((k, d) :: rest) nb = degGet rest nb := by
        rw [degGet_cons, if_neg hk2]
      rw [h1]
      omega

theorem enqList_sumPos (nbs : List String) :
    ∀ deg : List (String × Int),
      (enqList deg nbs).length + sumPos (decrAll deg nbs) ≤ sumPos deg := by
  induction nbs with
  | nil => intro deg; simp [enqList, decrAll]
  | cons nb rest ih =>
    intro deg
    have hdec : decrAll deg (nb :: rest) = decrAll (degDecr deg nb) rest := rfl
    have hsum := sumPos_degDecr deg nb
    have hd := degGet_degDecr deg nb nb
    have hrest := ih (degDecr deg nb)
    simp only [enqList, hdec, List.length_append]
    by_cases h0 : degGet (degDecr deg nb) nb = 0
    · have hpos : 0 < degGet deg nb := by
        rw [hd, if_pos rfl] at h0; omega
      simp only [h0, beq_self_eq_true, if_true, List.length_singleton]
      rw [if_pos hpos] at hsum
      omega
    · simp only [beq_iff_eq, h0, if_false, List.length_nil]
      split_ifs at hsum <;> omega

theorem enqList_count (nbs : List String) :
    ∀ (deg : List (String × Int)) (x : String),
      (enqList deg nbs).count x =
        if 0 < degGet deg x ∧ degGet deg x ≤ (nbs.count x : Int) then 1 else 0 := by
  induction nbs with
  | nil =>
    intro deg x
    simp only [enqList, List.count_nil]
    split_ifs with h
    · exfalso; simp only [List.count_nil, Nat.cast_zero] at h; omega
    · rfl
  | cons nb rest ih =>
    intro deg x
    have hd := degGet_degDecr deg nb x
    rw [enqList, List.count_append, ih]
    by_cases hx : x = nb
    · subst hx
      rw [if_pos rfl] at hd
      have hcc : List.count x (x :: rest) = List.count x rest + 1 := by simp
      rw [hcc, hd]
      by_cases h0 : degGet deg x - 1 = 0
      · have hh : (if ((degGet deg x - 1 : Int) == 0) = true then [x] else []) = [x] := by
          simp [h0]
        rw [hh]
        have h1 : List.count x [x] = 1 := by simp
        rw [h1]
        split_ifs <;> omega
      · have hh : (if ((degGet deg x - 1 : Int) == 0) = true then [x] else []) = [] := by
          simp [h0]
        rw [hh, List.count_nil]
        split_ifs <;> omega
    · have hne : (nb == x) = false := beq_eq_false_iff_ne.mpr (fun h => hx (h ▸ rfl))
      rw [if_neg hx] at hd
      have hcc : List.count x (nb :: rest) = List.count x rest := by
        rw [List.count_cons]; simp [hne]
      rw [hcc, hd]
      by_cases h0 : degGet (degDecr deg nb) nb = 0
      · have hh : (if degGet (degDecr deg nb) nb == 0 then [nb] else []) = [nb] := by
          simp [h0]
        rw [hh]
        have h1 : List.count x [nb] = 0 := by
          simp only [List.count_singleton']
          exact if_neg (by simpa [beq_iff_eq] using fun h : nb = x => hx h.symm)
        rw [h1]
        omega
      · have hh : (if degGet (degDecr deg nb) nb == 0 then [nb] else []) = [] := by
          simp [h0]
        rw [hh, List.count_nil]
        omega

theorem processNeighbor_foldl (nbs : List String) :
    ∀ (q : List String) (deg : List (String × Int)),
      nbs.foldl processNeighbor (q, deg) = (q ++ enqList deg nbs, decrAll deg nbs) := by
  induction nbs with
  | nil => intro q deg; simp [enqList, decrAll]
  | cons nb rest ih =>
    intro q deg
    have hstep : processNeighbor (q, deg) nb =
        (q ++ (if degGet (degDecr deg nb) nb == 0 then [nb] else []), degDecr deg nb) := by
      unfold processNeighbor
      by_cases h : degGet (degDecr deg nb) nb = 0
      · simp [h]
      · simp [h]
    have : decrAll deg (nb :: rest) = decrAll (degDecr deg nb) rest := rfl
    simp only [List.foldl_cons, hstep, ih, enqList, this, List.append_assoc]

/-- The number of edges into `x`. -/
def cntTo (edges : List (String × String)) (x : String) : Nat :=
  (edges.filter (fun e => e.2 == x)).length

/-- The number of edges into `x` whose source is already processed. -/
def cntFrom (edges : List (String × String)) (acc : List String) (x : String) : Nat :=
  (edges.filter (fun e => e.2 == x && acc.contains e.1)).length

/-- The number of edges from `c` to `x`. -/
def cntBtw (edges : List (String × String)) (c x : String) : Nat :=
  (edges.filter (fun e => e.1 == c && e.2 == x)).length

theorem cntTo_cons (a b x : String) (rest : List (String × String)) :
    cntTo ((a, b) :: rest) x = cntTo rest x + if b = x then 1 else 0 := by
  by_cases hb : b = x <;> simp [cntTo, List.filter_cons, hb]

theorem cntFrom_cons (a b x : String) (acc : List String) (rest : List (String × String)) :
    cntFrom ((a, b) :: rest) acc x =
      cntFrom rest acc x + if b = x ∧ a ∈ acc then 1 else 0 := by
  by_cases hb : b = x <;> by_cases ha : a ∈ acc <;>
    simp [cntFrom, List.filter_cons, hb, ha]

theorem cntBtw_cons (a b c x : String) (rest : List (String × String)) :
    cntBtw ((a, b) :: rest) c x = cntBtw rest c x + if a = c ∧ b = x then 1 else 0 := by
  by_cases ha : a = c <;> by_cases hb : b = x <;>
    simp [cntBtw, List.filter_cons, ha, hb]

theorem cntFrom_nil (edges : List (String × String)) (x : String) :
    cntFrom edges [] x = 0 := by
  induction edges with
  | nil => rfl
  | cons e rest ih =>
    obtain ⟨a, b⟩ := e
    rw [cntFrom_cons, ih]
    simp

theorem cntFrom_le_cntTo (edges : List (String × String)) (acc : List String) (x : String) :
    cntFrom edges acc x ≤ cntTo edges x := by
  induction edges with
  | nil => exact Nat.le_refl 0
  | cons e rest ih =>
    obtain ⟨a, b⟩ := e
    rw [cntFrom_cons, cntTo_cons]
    split_ifs <;> simp_all <;> omega

theorem cntFrom_append_one (edges : List (String × String)) (acc : List String)
    (c x : String) (hc : c ∉ acc) :
    cntFrom edges (acc ++ [c]) x = cntFrom edges acc x + cntBtw edges c x := by
  induction edges with
  | nil => rfl
  | cons e rest ih =>
    obtain ⟨a, b⟩ := e
    rw [cntFrom_cons, cntFrom_cons, cntBtw_cons, ih]
    have hmem : a ∈ acc ++ [c] ↔ a ∈ acc ∨ a = c := by simp
    by_cases hb : b = x
    · by_cases hac : a = c
      · subst hac
        rw [if_pos ⟨hb, hmem.mpr (Or.inr rfl)⟩, if_neg (fun h => hc h.2),
          if_pos ⟨rfl, hb⟩]
        omega
      · by_cases ha : a ∈ acc
        · rw [if_pos ⟨hb, hmem.mpr (Or.inl ha)⟩, if_pos ⟨hb, ha⟩,
            if_neg (fun h => hac h.1)]
          omega
        · rw [if_neg (fun h => (hmem.mp h.2).elim ha hac), if_neg (fun h => ha h.2),
            if_neg (fun h => hac h.1)]
          omega
    · rw [if_neg (fun h => hb h.1), if_neg (fun h => hb h.1), if_neg (fun h => hb h.2)]
      omega

theorem cntFrom_mono (edges : List (String × String)) (acc acc2 : List String)
    (x : String) (h : ∀ a ∈ acc, a ∈ acc2) :
    cntFrom edges acc x ≤ cntFrom edges acc2 x := by
  induction edges with
  | nil => exact Nat.le_refl 0
  | cons e rest ih =>
    obtain ⟨a, b⟩ := e
    rw [cntFrom_cons, cntFrom_cons]
    by_cases hhead : b = x ∧ a ∈ acc
    · rw [if_pos hhead, if_pos ⟨hhead.1, h a hhead.2⟩]
      omega
    · rw [if_neg hhead]
      split_ifs <;> omega

theorem cntFrom_eq_of_closed (edges : List (String × String)) (acc : List String)
    (x : String) (h : ∀ e ∈ edges, e.2 = x → e.1 ∈ acc) :
    cntFrom edges acc x = cntTo edges x := by
  induction edges with
  | nil => rfl
  | cons e rest ih =>
    obtain ⟨a, b⟩ := e
    have hrest : ∀ e ∈ rest, e.2 = x → e.1 ∈ acc :=
      fun e he hx => h e (List.mem_cons_of_mem _ he) hx
    rw [cntFrom_cons, cntTo_cons, ih hrest]
    by_cases hb : b = x
    · rw [if_pos ⟨hb, h (a, b) (List.mem_cons_self _ _) hb⟩, if_pos hb]
    · rw [if_neg (fun hh => hb hh.1), if_neg hb]

theorem closed_of_cntFrom_eq (edges : List (String × String)) (acc : List String)
    (x : String) (h : cntFrom edges acc x = cntTo edges x) :
    ∀ e ∈ edges, e.2 = x → e.1 ∈ acc := by
  induction edges with
  | nil => intro e he; cases he
  | cons e rest ih =>
    obtain ⟨a, b⟩ := e
    intro e2 he2 hx2
    rw [cntFrom_cons, cntTo_cons] at h
    have hle := cntFrom_le_cntTo rest acc x
    rcases List.mem_cons.mp he2 with rfl | hmem
    · by_contra ha
      rw [if_neg (fun hh : b = x ∧ a ∈ acc => ha hh.2), if_pos hx2] at h
      omega
    · have h2 : cntFrom rest acc x = cntTo rest x := by
        by_cases hA : b = x ∧ a ∈ acc
        · rw [if_pos hA, if_pos hA.1] at h; omega
        · rw [if_neg hA] at h
          by_cases hB : b = x
          · rw [if_pos hB] at h; omega
          · rw [if_neg hB] at h; omega
      exact ih h2 e2 hmem hx2

theorem exists_unprocessed_of_lt (edges : List (String × String)) (acc : List String)
    (x : String) (h : cntFrom edges acc x < cntTo edges x) :
    ∃ e ∈ edges, e.2 = x ∧ e.1 ∉ acc := by
  by_contra hc
  push_neg at hc
  have : cntFrom edges acc x = cntTo edges x :=
    cntFrom_eq_of_closed edges acc x (fun e he hx => hc e he hx)
  omega

theorem count_neighbors (edges : List (String × String)) (c x : String) :
    ((edges.filter (fun e => e.1 == c)).map Prod.snd).count x = cntBtw edges c x := by
  induction edges with
  | nil => rfl
  | cons e rest ih =>
    obtain ⟨a, b⟩ := e
    by_cases hac : a = c
    · by_cases hb : b = x
      · simp [cntBtw, List.filter_cons, hac, hb, List.count_cons] at ih ⊢; omega
      · have hbx : (b == x) = false := beq_eq_false_iff_ne.mpr hb
        simp [cntBtw, List.filter_cons, hac, hb, List.count_cons, hbx] at ih ⊢; omega
    · simp [cntBtw, List.filter_cons, hac] at ih ⊢; exact ih

theorem foldl_pair {α β γ : Type} (f : α → γ → α) (g : β → γ → β) (l : List γ) :
    ∀ (a : α) (b : β),
      l.foldl (fun ab e => (f ab.1 e, g ab.2 e)) (a, b) = (l.foldl f a, l.foldl g b) := by
  induction l with
  | nil => intro a b; rfl
  | cons e rest ih => intro a b; exact ih (f a e) (g b e)

theorem graphGet_nil (x : String) : graphGet [] x = [] := rfl

theorem graphGet_cons (k : String) (vs : List String)
    (rest : List (String × List String)) (x : String) :
    graphGet ((k, vs) :: rest) x = if x = k then vs else graphGet rest x := by
  by_cases h : x = k
  · subst h; simp [graphGet, List.lookup]
  · have hb : (x == k) = false := beq_eq_false_iff_ne.mpr h
    simp [graphGet, List.lookup, hb, h]

theorem graphAppend_cons (k : String) (vs : List String)
    (rest : List (String × List String)) (a b : String) :
    graphAppend ((k, vs) :: rest) a b =
      if k = a then (k, vs ++ [b]) :: rest else (k, vs) :: graphAppend rest a b := by
  by_cases h : k = a
  · simp [graphAppend, h]
  · have hb : (k == a) = false := beq_eq_false_iff_ne.mpr h
    simp [graphAppend, hb, h]

theorem graphGet_graphAppend (g : List (String × List String)) (a b x : String) :
    graphGet (graphAppend g a b) x =
      if x = a then graphGet g x ++ [b] else graphGet g x := by
  induction g with
  | nil =>
    show graphGet [(a, [b])] x = _
    by_cases h : x = a <;> simp [graphGet_cons, graphGet_nil, h]
  | cons p rest ih =>
    obtain ⟨k, vs⟩ := p
    rw [graphAppend_cons]
    by_cases hk : k = a
    · subst hk
      rw [if_pos rfl]
      by_cases hx : x = k <;> simp [graphGet_cons, hx]
    · rw [if_neg hk]
      by_cases hx : x = k
      · subst hx
        have : ¬x = a := fun h => hk (h ▸ rfl)
        simp [graphGet_cons, this]
      · simp [graphGet_cons, hx, ih]

theorem graphGet_buildFold (es : List (String × String)) :
    ∀ (g0 : List (String × List String)) (x : String),
      graphGet (es.foldl (fun g e => graphAppend g e.1 e.2) g0) x =
        graphGet g0 x ++ (es.filter (fun e => e.1 == x)).map Prod.snd := by
  induction es with
  | nil => intro g0 x; simp
  | cons e rest ih =>
    intro g0 x
    obtain ⟨a, b⟩ := e
    rw [List.foldl_cons, ih, graphGet_graphAppend]
    by_cases hx : x = a
    · subst hx
      simp [List.filter_cons]
    · have hb : (a == x) = false := beq_eq_false_iff_ne.mpr (fun h => hx (h ▸ rfl))
      simp [List.filter_cons, hx, hb]

theorem degIncr_cons (k : String) (v : Int) (rest : List (String × Int)) (y : String) :
    degIncr ((k, v) :: rest) y =
      (if k = y then (k, v + 1) else (k, v)) :: degIncr rest y := by
  by_cases h : k = y <;> simp [degIncr, h]

theorem lookup_degIncr_isSome (d : List (String × Int)) (y x : String) :
    (List.lookup x (degIncr d y)).isSome = (List.lookup x d).isSome := by
  induction d with
  | nil => rfl
  | cons p rest ih =>
    obtain ⟨k, v⟩ := p
    rw [degIncr_cons]
    by_cases hk : k = y
    · rw [if_pos hk]
      by_cases hx : x = k
      · subst hx; simp [List.lookup]
      · have hb := beq_eq_false_iff_ne.mpr hx
        simp [List.lookup, hb, ih]
    · rw [if_neg hk]
      by_cases hx : x = k
      · subst hx; simp [List.lookup]
      · have hb := beq_eq_false_iff_ne.mpr hx
        simp [List.lookup, hb, ih]

theorem degGet_degIncr (d : List (String × Int)) (y x : String) :
    degGet (degIncr d y) x =
      if x = y ∧ (List.lookup x d).isSome then degGet d x + 1 else degGet d x := by
  induction d with
  | nil => simp [degIncr, degGet_nil, List.lookup]
  | cons p rest ih =>
    obtain ⟨k, v⟩ := p
    rw [degIncr_cons]
    by_cases hk : k = y
    · subst hk
      rw [if_pos rfl]
      by_cases hx : x = k
      · subst hx
        simp [degGet_cons, List.lookup]
      · rw [degGet_cons, if_neg hx, ih, degGet_cons, if_neg hx]
        have hlk : List.lookup x ((k, v) :: rest) = List.lookup x rest := by
          simp [List.lookup, beq_eq_false_iff_ne.mpr hx]
        rw [hlk]
    · rw [if_neg hk]
      by_cases hx : x = k
      · have hxy : ¬x = y := fun h => hk (hx.symm.trans h)
        rw [degGet_cons, if_pos hx, if_neg (fun h => hxy h.1), degGet_cons, if_pos hx]
      · rw [degGet_cons, if_neg hx, ih, degGet_cons, if_neg hx]
        have hlk : List.lookup x ((k, v) :: rest) = List.lookup x rest := by
          simp [List.lookup, beq_eq_false_iff_ne.mpr hx]
        rw [hlk]

theorem lookup_degIncrFold_isSome (es : List (String × String)) :
    ∀ (d0 : List (String × Int)) (x : String),
      (List.lookup x (es.foldl (fun d e => degIncr d e.2) d0)).isSome =
        (List.lookup x d0).isSome := by
  induction es with
  | nil => intro d0 x; rfl
  | cons e rest ih =>
    intro d0 x
    rw [List.foldl_cons, ih, lookup_degIncr_isSome]

theorem degGet_degIncrFold (es : List (String × String)) :
    ∀ (d0 : List (String × Int)) (x : String),
      (List.lookup x d0).isSome →
      degGet (es.foldl (fun d e => degIncr d e.2) d0) x =
        degGet d0 x + (cntTo es x : Int) := by
  induction es with
  | nil => intro d0 x _; simp [cntTo]
  | cons e rest ih =>
    intro d0 x hs
    obtain ⟨a, b⟩ := e
    rw [List.foldl_cons, ih _ x (by rw [lookup_degIncr_isSome]; exact hs),
      degGet_degIncr, cntTo_cons]
    by_cases hb : x = b
    · rw [if_pos ⟨hb, hs⟩, if_pos hb.symm]
      push_cast
      omega
    · rw [if_neg (fun h => hb h.1), if_neg (fun h => hb h.symm)]
      push_cast
      omega

theorem keys_degIncr (d : List (String × Int)) (y : String) :
    (degIncr d y).map Prod.fst = d.map Prod.fst := by
  induction d with
  | nil => rfl
  | cons p rest ih =>
    obtain ⟨k, v⟩ := p
    rw [degIncr_cons]
    by_cases hk : k = y <;> simp [hk, ih]

theorem keys_degIncrFold (es : List (String × String)) :
    ∀ d0 : List (String × Int),
      ((es.foldl (fun d e => degIncr d e.2) d0)).map Prod.fst = d0.map Prod.fst := by
  induction es with
  | nil => intro d0; rfl
  | cons e rest ih => intro d0; rw [List.foldl_cons, ih, keys_degIncr]

theorem lookup_eq_of_mem_nodup (l : List (String × Int))
    (hnd : (l.map Prod.fst).Nodup) (x : String) (d : Int) (hm : (x, d) ∈ l) :
    List.lookup x l = some d := by
  induction l with
  | nil => cases hm
  | cons p rest ih =>
    obtain ⟨k, v⟩ := p
    simp only [List.map_cons, List.nodup_cons] at hnd
    rcases List.mem_cons.mp hm with heq | hmem
    · cases heq
      simp [List.lookup]
    · have hxk : ¬x = k := by
        intro h
        subst h
        exact hnd.1 (List.mem_map_of_mem Prod.fst hmem)
      simp [List.lookup, beq_eq_false_iff_ne.mpr hxk, ih hnd.2 hmem]

theorem lookup_isSome_of_mem_keys (l : List (String × Int)) (x : String)
    (hx : x ∈ l.map Prod.fst) : (List.lookup x l).isSome := by
  induction l with
  | nil => cases hx
  | cons p rest ih =>
    obtain ⟨k, v⟩ := p
    rcases List.mem_cons.mp hx with heq | hmem
    · subst heq
      simp [List.lookup]
    · by_cases hxk : x = k
      · subst hxk; simp [List.lookup]
      · simp [List.lookup, beq_eq_false_iff_ne.mpr hxk, ih hmem]

/-- The invariant of Kahn's loop: `q` is the pending queue, `deg` the
degree table, `acc` the emitted prefix of the result. -/
structure KInv (edges : List (String × String)) (names : List String)
    (q : List String) (deg : List (String × Int)) (acc : List String) : Prop where
  acc_sub : ∀ x ∈ acc, x ∈ names
  q_sub : ∀ x ∈ q, x ∈ names
  acc_nd : acc.Nodup
  q_nd : q.Nodup
  disj : ∀ x ∈ acc, x ∉ q
  hdeg : ∀ x ∈ names, degGet deg x = (cntTo edges x : Int) - (cntFrom edges acc x : Int)
  q_zero : ∀ x ∈ q, cntFrom edges acc x = cntTo edges x
  q_comp : ∀ x ∈ names, x ∉ acc → x ∉ q → cntFrom edges acc x < cntTo edges x
  topo : ∀ l1 x l2, acc = l1 ++ x :: l2 → ∀ e ∈ edges, e.2 = x → e.1 ∈ l1

theorem snoc_split (l : List String) (a : String) :
    ∀ (l1 : List String) (x : String) (l2 : List String),
      l ++ [a] = l1 ++ x :: l2 →
      (l1 = l ∧ x = a ∧ l2 = []) ∨ ∃ l2b, l = l1 ++ x :: l2b ∧ l2 = l2b ++ [a] := by
  induction l with
  | nil =>
    intro l1 x l2 h
    cases l1 with
    | nil =>
      simp only [List.nil_append] at h
      cases h
      exact Or.inl ⟨rfl, rfl, rfl⟩
    | cons z l1t =>
      simp only [List.nil_append, List.cons_append] at h
      injection h with h1 h2
      exact absurd h2.symm (by simp)
  | cons y l3 ih =>
    intro l1 x l2 h
    cases l1 with
    | nil =>
      simp only [List.cons_append, List.nil_append] at h
      cases h
      exact Or.inr ⟨l3, rfl, rfl⟩
    | cons z l1t =>
      simp only [List.cons_append] at h
      injection h with h1 h2
      subst h1
      rcases ih l1t x l2 h2 with ⟨hl, hx, hl2⟩ | ⟨l2b, hl, hl2⟩
      · exact Or.inl ⟨by rw [hl], hx, hl2⟩
      · exact Or.inr ⟨l2b, by rw [hl, List.cons_append], hl2⟩

theorem KInv_closed_acc {edges : List (String × String)} {names : List String}
    {q : List String} {deg : List (String × Int)} {acc : List String}
    (hinv : KInv edges names q deg acc) :
    ∀ x ∈ acc, ∀ e ∈ edges, e.2 = x → e.1 ∈ acc := by
  intro x hx e he h2
  obtain ⟨s, t, rfl⟩ := List.append_of_mem hx
  exact List.mem_append_left _ (hinv.topo s x t rfl e he h2)

theorem KInv_step (edges : List (String × String)) (names : List String)
    (Hsrc : ∀ e ∈ edges, e.1 ∈ names) (Htgt : ∀ e ∈ edges, e.2 ∈ names)
    (current : String) (qrest : List String) (deg : List (String × Int))
    (acc : List String) (nbs : List String)
    (hnbs : nbs = (edges.filter (fun e => e.1 == current)).map Prod.snd)
    (hinv : KInv edges names (current :: qrest) deg acc) :
    KInv edges names (qrest ++ enqList deg nbs) (decrAll deg nbs) (acc ++ [current]) := by
  have hcur_names : current ∈ names := hinv.q_sub current (List.mem_cons_self _ _)
  have hcur_nacc : current ∉ acc := fun h => hinv.disj current h (List.mem_cons_self _ _)
  have hq0 : cntFrom edges acc current = cntTo edges current :=
    hinv.q_zero current (List.mem_cons_self _ _)
  have hqrest_nd : qrest.Nodup := (List.nodup_cons.mp hinv.q_nd).2
  have hcur_nqrest : current ∉ qrest := (List.nodup_cons.mp hinv.q_nd).1
  have hcnt : ∀ x, nbs.count x = cntBtw edges current x := by
    intro x; rw [hnbs, count_neighbors]
  have hdeg2 : ∀ x, degGet (decrAll deg nbs) x =
      degGet deg x - (cntBtw edges current x : Int) := by
    intro x; rw [degGet_decrAll, hcnt x]
  have hfrom2 : ∀ x, cntFrom edges (acc ++ [current]) x =
      cntFrom edges acc x + cntBtw edges current x :=
    fun x => cntFrom_append_one edges acc current x hcur_nacc
  have henq : ∀ x, x ∈ enqList deg nbs ↔
      (0 < degGet deg x ∧ degGet deg x ≤ (cntBtw edges current x : Int)) := by
    intro x
    have hcount := enqList_count nbs deg x
    rw [hcnt x] at hcount
    constructor
    · intro hx
      have : 0 < (enqList deg nbs).count x := List.count_pos_iff_mem.mpr hx
      by_contra hcond
      rw [if_neg hcond] at hcount
      omega
    · intro hcond
      rw [if_pos hcond] at hcount
      exact List.count_pos_iff_mem.mp (by omega)
  have hnbs_names : ∀ x ∈ nbs, x ∈ names := by
    intro x hx
    rw [hnbs] at hx
    obtain ⟨e, he, rfl⟩ := List.mem_map.mp hx
    exact Htgt e (List.mem_of_mem_filter he)
  have henq_names : ∀ x ∈ enqList deg nbs, x ∈ names := by
    intro x hx
    have hcond := (henq x).mp hx
    have : 0 < nbs.count x := by
      have := hcnt x; omega
    exact hnbs_names x (List.count_pos_iff_mem.mp this)
  have hacc_zero : ∀ x ∈ acc, cntFrom edges acc x = cntTo edges x := by
    intro x hx
    exact cntFrom_eq_of_closed edges acc x (fun e he h2 => KInv_closed_acc hinv x hx e he h2)
  have hnotenq_acc : ∀ x ∈ acc, x ∉ enqList deg nbs := by
    intro x hx hmem
    have hz := hacc_zero x hx
    have hd := hinv.hdeg x (hinv.acc_sub x hx)
    have hcond := (henq x).mp hmem
    omega
  have hnotenq_cur : current ∉ enqList deg nbs := by
    intro hmem
    have hd := hinv.hdeg current hcur_names
    have hcond := (henq current).mp hmem
    omega
  have hnotenq_qrest : ∀ x ∈ qrest, x ∉ enqList deg nbs := by
    intro x hx hmem
    have hz := hinv.q_zero x (List.mem_cons_of_mem _ hx)
    have hd := hinv.hdeg x (hinv.q_sub x (List.mem_cons_of_mem _ hx))
    have hcond := (henq x).mp hmem
    omega
  have henq_nd : (enqList deg nbs).Nodup := by
    rw [List.nodup_iff_count_le_one]
    intro x
    have := enqList_count nbs deg x
    split_ifs at this <;> omega
  refine ⟨?_, ?_, ?_, ?_, ?_, ?_, ?_, ?_, ?_⟩
  · intro x hx
    rcases List.mem_append.mp hx with h | h
    · exact hinv.acc_sub x h
    · rcases List.mem_singleton.mp h with rfl
      exact hcur_names
  · intro x hx
    rcases List.mem_append.mp hx with h | h
    · exact hinv.q_sub x (List.mem_cons_of_mem _ h)
    · exact henq_names x h
  · rw [List.nodup_append]
    exact ⟨hinv.acc_nd, List.nodup_singleton _,
      fun x hx hy => hcur_nacc ((List.mem_singleton.mp hy) ▸ hx)⟩
  · rw [List.nodup_append]
    exact ⟨hqrest_nd, henq_nd, fun x hx hy => hnotenq_qrest x hx hy⟩
  · intro x hx hq
    rcases List.mem_append.mp hx with h | h
    · rcases List.mem_append.mp hq with h2 | h2
      · exact hinv.disj x h (List.mem_cons_of_mem _ h2)
      · exact hnotenq_acc x h h2
    · rcases List.mem_singleton.mp h with rfl
      rcases List.mem_append.mp hq with h2 | h2
      · exact hcur_nqrest h2
      · exact hnotenq_cur h2
  · intro x hx
    rw [hdeg2 x, hfrom2 x, hinv.hdeg x hx]
    push_cast
    ring
  · intro x hx
    rcases List.mem_append.mp hx with h | h
    · have hz := hinv.q_zero x (List.mem_cons_of_mem _ h)
      have hmono : cntFrom edges acc x ≤ cntFrom edges (acc ++ [current]) x :=
        cntFrom_mono edges acc (acc ++ [current]) x (fun a ha => List.mem_append_left _ ha)
      have hle : cntFrom edges (acc ++ [current]) x ≤ cntTo edges x :=
        cntFrom_le_cntTo edges (acc ++ [current]) x
      omega
    · have hcond := (henq x).mp h
      have hd := hinv.hdeg x (henq_names x h)
      have hf := hfrom2 x
      have hle : cntFrom edges (acc ++ [current]) x ≤ cntTo edges x :=
        cntFrom_le_cntTo edges (acc ++ [current]) x
      omega
  · intro x hx hacc hq
    have hxcur : ¬x = current := by
      intro h; subst h
      exact hacc (List.mem_append_right _ (List.mem_singleton.mpr rfl))
    have hxacc : x ∉ acc := fun h => hacc (List.mem_append_left _ h)
    have hxqrest : x ∉ qrest := fun h => hq (List.mem_append_left _ h)
    have hxenq : x ∉ enqList deg nbs := fun h => hq (List.mem_append_right _ h)
    have hxoldq : x ∉ current :: qrest := by
      intro h
      rcases List.mem_cons.mp h with h | h
      · exact hxcur h
      · exact hxqrest h
    have hlt := hinv.q_comp x hx hxacc hxoldq
    have hd := hinv.hdeg x hx
    have hf := hfrom2 x
    have hle : cntFrom edges (acc ++ [current]) x ≤ cntTo edges x :=
      cntFrom_le_cntTo edges (acc ++ [current]) x
    by_contra hge
    have heq : cntFrom edges (acc ++ [current]) x = cntTo edges x := by omega
    have : x ∈ enqList deg nbs := (henq x).mpr (by omega)
    exact hxenq this
  · intro l1 x l2 hsplit e he h2
    rcases snoc_split acc current l1 x l2 hsplit with ⟨hl1, hx, _⟩ | ⟨l2b, hl, _⟩
    · rw [hl1]
      exact closed_of_cntFrom_eq edges acc current hq0 e he (hx ▸ h2)
    · exact hinv.topo l1 x l2b hl e he h2

theorem kahnLoopF_inv (edges : List (String × String)) (names : List String)
    (g : List (String × List String))
    (Hsrc : ∀ e ∈ edges, e.1 ∈ names) (Htgt : ∀ e ∈ edges, e.2 ∈ names)
    (Hg : ∀ x, graphGet g x = (edges.filter (fun e => e.1 == x)).map Prod.snd) :
    ∀ (n : Nat) (q : List String) (deg : List (String × Int)) (acc : List String),
      q.length + sumPos deg ≤ n →
      KInv edges names q deg acc →
      ∃ deg2, KInv edges names [] deg2 (kahnLoopF g n q deg acc) := by
  intro n
  induction n with
  | zero =>
    intro q deg acc hm hinv
    have hq : q = [] := List.eq_nil_of_length_eq_zero (by omega)
    subst hq
    exact ⟨deg, hinv⟩
  | succ n ih =>
    intro q deg acc hm hinv
    cases q with
    | nil => exact ⟨deg, hinv⟩
    | cons current qrest =>
      have hstep : kahnLoopF g (Nat.succ n) (current :: qrest) deg acc =
          kahnLoopF g n (qrest ++ enqList deg (graphGet g current))
            (decrAll deg (graphGet g current)) (acc ++ [current]) := by
        show kahnLoopF g n
            ((graphGet g current).foldl processNeighbor (qrest, deg)).1
            ((graphGet g current).foldl processNeighbor (qrest, deg)).2
            (acc ++ [current]) = _
        rw [processNeighbor_foldl]
      rw [hstep]
      have hmeas : (qrest ++ enqList deg (graphGet g current)).length +
          sumPos (decrAll deg (graphGet g current)) ≤ n := by
        have := enqList_sumPos (graphGet g current) deg
        simp only [List.length_append, List.length_cons] at hm ⊢
        omega
      exact ih _ _ _ hmeas
        (KInv_step edges names Hsrc Htgt current qrest deg acc
          (graphGet g current) (Hg current) hinv)

/-- The initial queue `resolveorder` builds: the zero-degree nodes in
field-mapping order. -/
def q0F (fields : List (String × Field)) : List String :=
  (((buildGD fields).2.filter (fun p => p.2 == 0)).map Prod.fst)

/-- The list Kahn's loop computes inside `resolveorder`. -/
def kahnX (fields : List (String × Field)) : List String :=
  kahnLoopF (buildGD fields).1 ((q0F fields).length + sumPos (buildGD fields).2)
    (q0F fields) (buildGD fields).2 []

theorem resolveorder_eq (fields : List (String × Field)) :
    resolveorder fields =
      if (kahnX fields).length ≠ fields.length then
        .error (valueError ("Circular dependency detected: " ++
          String.intercalate " -> " (detectcycle fields)))
      else .ok (kahnX fields) := rfl

theorem buildGD_eq (fields : List (String × Field)) :
    buildGD fields =
      ((schemaEdges fields).foldl (fun g e => graphAppend g e.1 e.2) [],
       (schemaEdges fields).foldl (fun d e => degIncr d e.2)
         (fields.map (fun p => (p.1, (0 : Int))))) := by
  unfold buildGD
  exact foldl_pair (fun g e => graphAppend g e.1 e.2) (fun d e => degIncr d e.2)
    (schemaEdges fields) [] (fields.map (fun p => (p.1, (0 : Int))))

theorem graphGet_buildGD (fields : List (String × Field)) (x : String) :
    graphGet (buildGD fields).1 x =
      ((schemaEdges fields).filter (fun e => e.1 == x)).map Prod.snd := by
  rw [buildGD_eq]
  simpa using graphGet_buildFold (schemaEdges fields) [] x

theorem degGet_initMap (fields : List (String × Field)) (x : String) :
    degGet (fields.map (fun p => (p.1, (0 : Int)))) x = 0 := by
  induction fields with
  | nil => rfl
  | cons p rest ih =>
    obtain ⟨name, f⟩ := p
    simp only [List.map_cons]
    rw [degGet_cons]
    by_cases h : x = name <;> simp [h, ih]

theorem keys_initMap (fields : List (String × Field)) :
    (fields.map (fun p => (p.1, (0 : Int)))).map Prod.fst = fields.map Prod.fst := by
  simp [List.map_map]

theorem keys_buildGD (fields : List (String × Field)) :
    (buildGD fields).2.map Prod.fst = fields.map Prod.fst := by
  rw [buildGD_eq]
  simp only []
  rw [keys_degIncrFold, keys_initMap]

theorem degGet_buildGD (fields : List (String × Field)) (x : String)
    (hx : x ∈ fields.map Prod.fst) :
    degGet (buildGD fields).2 x = (cntTo (schemaEdges fields) x : Int) := by
  rw [buildGD_eq]
  simp only []
  rw [degGet_degIncrFold _ _ _
      (lookup_isSome_of_mem_keys _ _ (by rw [keys_initMap]; exact hx)),
    degGet_initMap]
  omega

theorem q0F_mem (fields : List (String × Field)) (x : String) :
    x ∈ q0F fields ↔ ∃ p ∈ (buildGD fields).2, p.1 = x ∧ p.2 = 0 := by
  unfold q0F
  constructor
  · intro hx
    obtain ⟨p, hp, rfl⟩ := List.mem_map.mp hx
    obtain ⟨hm, hz⟩ := List.mem_filter.mp hp
    exact ⟨p, hm, rfl, by simpa using hz⟩
  · rintro ⟨p, hm, rfl, hz⟩
    exact List.mem_map.mpr ⟨p, List.mem_filter.mpr ⟨hm, by simpa using hz⟩, rfl⟩

theorem q0F_sublist (fields : List (String × Field)) :
    (q0F fields).Sublist (fields.map Prod.fst) := by
  have h1 : ((buildGD fields).2.filter (fun p => p.2 == 0)).Sublist (buildGD fields).2 :=
    List.filter_sublist _
  have h2 := h1.map Prod.fst
  rw [keys_buildGD] at h2
  exact h2

theorem q0F_iff_degGet (fields : List (String × Field))
    (hnd : (fields.map Prod.fst).Nodup) (x : String) (hx : x ∈ fields.map Prod.fst) :
    x ∈ q0F fields ↔ degGet (buildGD fields).2 x = 0 := by
  have hkeysnd : ((buildGD fields).2.map Prod.fst).Nodup := by
    rw [keys_buildGD]; exact hnd
  constructor
  · intro h
    obtain ⟨p, hm, h1, h2⟩ := (q0F_mem fields x).mp h
    have hpx : (x, (0 : Int)) ∈ (buildGD fields).2 := by
      have : p = (x, 0) := by
        cases p; cases h1; cases h2; rfl
      rw [← this]; exact hm
    have := lookup_eq_of_mem_nodup _ hkeysnd x 0 hpx
    simp [degGet, this]
  · intro h
    have hx2 : x ∈ (buildGD fields).2.map Prod.fst := by rw [keys_buildGD]; exact hx
    obtain ⟨p, hm, h1⟩ := List.mem_map.mp hx2
    have hpx : (x, p.2) ∈ (buildGD fields).2 := by
      have : p = (x, p.2) := by cases p; cases h1; rfl
      rw [← this]; exact hm
    have hlk := lookup_eq_of_mem_nodup _ hkeysnd x p.2 hpx
    have hp2 : p.2 = 0 := by
      have : degGet (buildGD fields).2 x = p.2 := by simp [degGet, hlk]
      omega
    exact (q0F_mem fields x).mpr ⟨(x, p.2), hpx, rfl, hp2⟩

theorem KInv_init (fields : List (String × Field))
    (hnd : (fields.map Prod.fst).Nodup) :
    KInv (schemaEdges fields) (fields.map Prod.fst) (q0F fields) (buildGD fields).2 [] := by
  have hq0sub : ∀ x ∈ q0F fields, x ∈ fields.map Prod.fst :=
    fun x hx => (q0F_sublist fields).mem hx
  refine ⟨?_, hq0sub, List.nodup_nil, (q0F_sublist fields).nodup hnd, ?_, ?_, ?_, ?_, ?_⟩
  · intro x hx; cases hx
  · intro x hx; cases hx
  · intro x hx
    rw [degGet_buildGD fields x hx, cntFrom_nil]
    omega
  · intro x hx
    have hdg := (q0F_iff_degGet fields hnd x (hq0sub x hx)).mp hx
    rw [degGet_buildGD fields x (hq0sub x hx)] at hdg
    rw [cntFrom_nil]
    omega
  · intro x hx _ hq
    have hdg : ¬degGet (buildGD fields).2 x = 0 :=
      fun h => hq ((q0F_iff_degGet fields hnd x hx).mpr h)
    rw [degGet_buildGD fields x hx] at hdg
    rw [cntFrom_nil]
    omega
  · intro l1 x l2 h
    exact absurd h.symm (by simp)

theorem strDeps_mem (f : Field) (d : String) (hd : d ∈ strDeps f) :
    Value.str d ∈ fieldDepsV f := by
  obtain ⟨v, hv, hfn⟩ := List.mem_filterMap.mp hd
  cases v <;> simp at hfn
  subst hfn
  exact hv

theorem validateDepsInner_sound (names : List String) (fname : String) :
    ∀ deps, validateDepsInner names fname deps = .ok () →
      ∀ d : String, Value.str d ∈ deps → d ∈ names := by
  intro deps
  induction deps with
  | nil => intro _ d hd; cases hd
  | cons dep rest ih =>
    intro h d hd
    by_cases hc : names.any (fun k => beqValue (.str k) dep) = true
    · rw [validateDepsInner, if_pos hc] at h
      rcases List.mem_cons.mp hd with rfl | hmem
      · obtain ⟨k, hk, hbeq⟩ := List.any_eq_true.mp hc
        have : k = d := by simpa [beqValue] using hbeq
        exact this ▸ hk
      · exact ih h d hmem
    · rw [validateDepsInner, if_neg hc] at h
      cases h

theorem validate_go_sound (names : List String) :
    ∀ l, validatedependencies.go names l = .ok () →
      ∀ e ∈ schemaEdges l, e.1 ∈ names := by
  intro l
  induction l with
  | nil => intro _ e he; cases he
  | cons p rest ih =>
    obtain ⟨name, f⟩ := p
    intro h e he
    simp only [validatedependencies.go] at h
    simp only [schemaEdges] at he
    cases hc : truthy f.conditional with
    | false =>
      simp only [hc, Bool.false_eq_true, if_false, List.nil_append] at h he
      exact ih h e he
    | true =>
      simp only [hc, if_true] at h he
      cases hv : validateDepsInner names name (fieldDepsV f) with
      | error err => rw [hv] at h; cases h
      | ok u =>
        rw [hv] at h
        rcases List.mem_append.mp he with hmem | hmem
        · obtain ⟨d, hd, rfl⟩ := List.mem_map.mp hmem
          have hu : validateDepsInner names name (fieldDepsV f) = .ok () := by
            cases u; exact hv
          exact validateDepsInner_sound names name (fieldDepsV f) hu d (strDeps_mem f d hd)
        · exact ih h e hmem

theorem validate_sound (fields : List (String × Field))
    (h : validatedependencies fields = .ok ()) :
    ∀ e ∈ schemaEdges fields, e.1 ∈ fields.map Prod.fst :=
  validate_go_sound (fields.map Prod.fst) fields h

theorem schemaEdges_target (fields : List (String × Field)) :
    ∀ e ∈ schemaEdges fields, e.2 ∈ fields.map Prod.fst := by
  induction fields with
  | nil => intro e he; cases he
  | cons p rest ih =>
    obtain ⟨name, f⟩ := p
    intro e he
    simp only [schemaEdges] at he
    rcases List.mem_append.mp he with h | h
    · cases hc : truthy f.conditional with
      | false => simp only [hc, Bool.false_eq_true, if_false] at h; cases h
      | true =>
        simp only [hc, if_true] at h
        obtain ⟨d, _, rfl⟩ := List.mem_map.mp h
        simp
    · simp only [List.map_cons]
      exact List.mem_cons_of_mem _ (ih e h)

theorem exists_min_rank (rank : String → Nat) :
    ∀ (S : List String), S ≠ [] → ∃ m ∈ S, ∀ y ∈ S, rank m ≤ rank y := by
  intro S
  induction S with
  | nil => intro h; exact absurd rfl h
  | cons x rest ih =>
    intro _
    by_cases hre : rest = []
    · subst hre
      refine ⟨x, List.mem_cons_self _ _, ?_⟩
      intro y hy
      rcases List.mem_cons.mp hy with rfl | h
      · exact Nat.le_refl _
      · cases h
    · obtain ⟨m, hm, hmin⟩ := ih hre
      by_cases hxm : rank x ≤ rank m
      · refine ⟨x, List.mem_cons_self _ _, ?_⟩
        intro y hy
        rcases List.mem_cons.mp hy with rfl | h
        · exact Nat.le_refl _
        · exact Nat.le_trans hxm (hmin y h)
      · refine ⟨m, List.mem_cons_of_mem _ hm, ?_⟩
        intro y hy
        rcases List.mem_cons.mp hy with rfl | h
        · exact Nat.le_of_lt (Nat.lt_of_not_le hxm)
        · exact hmin y h

/-- A conditional field declaring `deps` (its condition evaluator is
irrelevant to the resolver). -/
def condField (nm : String) (deps : List String) : Field :=
  { name := .str nm
    conditional := .bool true
    dependencies := .list (deps.map Value.str)
    conditions := .dict [(.str "value", .fn 0)] }

/-- The two-field cycle of the claim: `x` depends on `y`, `y` on `x`. -/
def cycleFields : List (String × Field) :=
  [("x", condField "x" ["y"]), ("y", condField "y" ["x"])]

/-- The diamond of the claim: `a` depends on `b`,`c`; `b`,`c` on `d`. -/
def diamondFields : List (String × Field) :=
  [("a", condField "a" ["b", "c"]), ("b", condField "b" ["d"]),
   ("c", condField "c" ["d"]), ("d", { name := .str "d", source := .str "input" })]

/-- C3.  On a validated field mapping with distinct names whose
dependency graph is acyclic (witnessed by a rank function increasing
along every edge `dep → name`), `resolveorder` returns a permutation of
the field names in which every declared dependency of a conditional
field occurs strictly before that field (first conjunct — at the
claim's diamond the witness instantiates this, giving `d` first and `a`
last).  On the two-field cycle `x ⇄ y` it raises
`Circular dependency detected: x -> y -> x`, whose message contains a
concrete cycle path naming both members (remaining conjuncts). -/
theorem resolveorder_toposort_c3 :
    (∀ (fields : List (String × Field)),
      (fields.map Prod.fst).Nodup →
      validatedependencies fields = .ok () →
      (∃ rank : String → Nat, ∀ e ∈ schemaEdges fields, rank e.1 < rank e.2) →
      ∃ l, resolveorder fields = .ok l ∧
        l.Perm (fields.map Prod.fst) ∧
        ∀ e ∈ schemaEdges fields,
          ∃ i j, i < j ∧ l.get? i = some e.1 ∧ l.get? j = some e.2) ∧
    resolveorder cycleFields =
      .error ⟨"ValueError", "Circular dependency detected: x -> y -> x"⟩ ∧
    "x".data <:+: ("Circular dependency detected: x -> y -> x").data ∧
    "y".data <:+: ("Circular dependency detected: x -> y -> x").data := by
  refine ⟨?_, rfl,
    ⟨"Circular dependency detected: ".data, " -> y -> x".data, rfl⟩,
    ⟨"Circular dependency detected: x -> ".data, " -> x".data, rfl⟩⟩
  rintro fields hnd hval ⟨rank, hrank⟩
  have Hsrc := validate_sound fields hval
  have Htgt := schemaEdges_target fields
  have Hg := graphGet_buildGD fields
  obtain ⟨deg2, hfin⟩ :=
    kahnLoopF_inv (schemaEdges fields) (fields.map Prod.fst) (buildGD fields).1
      Hsrc Htgt Hg ((q0F fields).length + sumPos (buildGD fields).2)
      (q0F fields) (buildGD fields).2 [] (Nat.le_refl _) (KInv_init fields hnd)
  have hfin2 : KInv (schemaEdges fields) (fields.map Prod.fst) [] deg2 (kahnX fields) :=
    hfin
  have hcomplete : ∀ x ∈ fields.map Prod.fst, x ∈ kahnX fields := by
    by_contra hc
    push_neg at hc
    obtain ⟨x0, hx0n, hx0l⟩ := hc
    have hx0S : x0 ∈ (fields.map Prod.fst).filter
        (fun y => !((kahnX fields).contains y)) :=
      List.mem_filter.mpr ⟨hx0n, by simpa using hx0l⟩
    obtain ⟨m, hmS, hmin⟩ :=
      exists_min_rank rank _ (List.ne_nil_of_mem hx0S)
    have hmn : m ∈ fields.map Prod.fst := (List.mem_filter.mp hmS).1
    have hml : m ∉ kahnX fields := by
      have := (List.mem_filter.mp hmS).2
      simpa using this
    have hlt := hfin2.q_comp m hmn hml (by intro h; cases h)
    obtain ⟨e, he, h2, h1⟩ := exists_unprocessed_of_lt _ _ _ hlt
    have h1S : e.1 ∈ (fields.map Prod.fst).filter
        (fun y => !((kahnX fields).contains y)) :=
      List.mem_filter.mpr ⟨Hsrc e he, by simpa using h1⟩
    have hge := hmin e.1 h1S
    have hlt2 := hrank e he
    rw [h2] at hlt2
    omega
  have hsub : ∀ x ∈ kahnX fields, x ∈ fields.map Prod.fst := hfin2.acc_sub
  have h12 : List.Subperm (kahnX fields) (fields.map Prod.fst) :=
    List.subperm_of_subset hfin2.acc_nd hsub
  have h21 : List.Subperm (fields.map Prod.fst) (kahnX fields) :=
    List.subperm_of_subset hnd hcomplete
  have hperm : (kahnX fields).Perm (fields.map Prod.fst) :=
    h12.perm_of_length_le h21.length_le
  have hlen : (kahnX fields).length = fields.length := by
    rw [hperm.length_eq, List.length_map]
  refine ⟨kahnX fields, ?_, hperm, ?_⟩
  · rw [resolveorder_eq, if_neg (fun h => h hlen)]
  · intro e he
    obtain ⟨s, t, hst⟩ := List.append_of_mem (hcomplete e.2 (Htgt e he))
    have h1s : e.1 ∈ s := hfin2.topo s e.2 t hst e he rfl
    obtain ⟨i, hi⟩ := List.mem_iff_get?.mp h1s
    have hilen : i < s.length := (List.get?_eq_some.mp hi).1
    refine ⟨i, s.length, hilen, ?_, ?_⟩
    · rw [hst, List.get?_append hilen]
      exact hi
    · rw [hst, List.get?_append_right (Nat.le_refl _)]
      simp

theorem resolveorder_toposort_c3_witness :
    ∃ l, resolveorder diamondFields = .ok l ∧
      l.Perm (diamondFields.map Prod.fst) ∧
      ∀ e ∈ schemaEdges diamondFields,
        ∃ i j, i < j ∧ l.get? i = some e.1 ∧ l.get? j = some e.2 :=
  resolveorder_toposort_c3.1 diamondFields (by decide) rfl
    ⟨fun n => if n = "d" then 0 else if n = "a" then 2 else 1, by decide⟩

end Schematix
